import Mathlib

/-!
Verification of the Meerkat Suricata-rule language server core against its
natural-language specification.

The Rust source is shallowly embedded:
* `parser.rs` (a chumsky combinator parser) is embedded as a deterministic
  PEG-style combinator library over an explicit input state.  Chumsky's
  `or` backtracks on recoverable failure; a Rust `panic!` (reached through
  `Result::unwrap`) is modelled as a third outcome `panicked` that no
  combinator recovers from, mirroring unwinding.
* the grammar data model (`rule/mod.rs`, `rule/header.rs`, `rule/options.rs`)
  and its `Display` impls are embedded as inductive types and `toString`
  functions; `Box` indirection is dropped, `Vec` becomes `List`,
  `u8`/`u16`/`usize` become `Nat` (with the range checks of the source made
  explicit where the source performs them).
* the legacy flat data model (`rule.rs`) together with its consumers
  `hover.rs`, `reference.rs` and `completion.rs` is embedded in the
  `Legacy` namespace; `HashMap`/`HashSet` become association lists and
  duplicate-free lists, iterated in storage order.
-/

/-- Half-open character range, `std::ops::Range<usize>` from `rule/mod.rs`
(`pub type Span = std::ops::Range<usize>;`). -/
structure Span where
  start : Nat
  stop : Nat
deriving DecidableEq, Repr

/-- `Range::contains`: `start <= offset < end`. -/
def Span.containsOff (s : Span) (n : Nat) : Bool :=
  decide (s.start ≤ n) && decide (n < s.stop)

/-- `pub type Spanned<T> = (T, Span);` -/
abbrev Spanned (α : Type) := α × Span

/-- Parser input state: absolute character offset plus remaining input. -/
structure PState where
  pos : Nat
  rest : List Char
deriving DecidableEq, Repr

/-- Outcome of running an embedded chumsky parser.  `fail` is a recoverable
parse error (chumsky `Err`, backtrackable through `or`); `panicked` models a
Rust panic (e.g. `Result::unwrap` on `Err`), which no combinator recovers. -/
inductive PResult (α : Type) where
  | ok (val : α) (st : PState)
  | fail
  | panicked
deriving Repr, DecidableEq

/-- An embedded chumsky parser. -/
abbrev Parsec (α : Type) := PState → PResult α

namespace Parsec

/-- `Parser::map`. -/
def pmap (p : Parsec α) (f : α → β) : Parsec β := fun st =>
  match p st with
  | .ok v st' => .ok (f v) st'
  | .fail => .fail
  | .panicked => .panicked

/-- `Parser::map_with_span`: the span covers exactly the consumed range. -/
def mapWithSpan (p : Parsec α) (f : α → Span → β) : Parsec β := fun st =>
  match p st with
  | .ok v st' => .ok (f v (Span.mk st.pos st'.pos)) st'
  | .fail => .fail
  | .panicked => .panicked

/-- `Parser::try_map` where the closure returns `Err` on `none`:
a recoverable diagnostic. -/
def tryMap (p : Parsec α) (f : α → Span → Option β) : Parsec β := fun st =>
  match p st with
  | .ok v st' =>
    match f v (Span.mk st.pos st'.pos) with
    | some w => .ok w st'
    | none => .fail
  | .fail => .fail
  | .panicked => .panicked

/-- A `map`/`try_map` whose closure calls `Result::unwrap`: `none` is a Rust
panic, not a parse error. -/
def mapUnwrap (p : Parsec α) (f : α → Span → Option β) : Parsec β := fun st =>
  match p st with
  | .ok v st' =>
    match f v (Span.mk st.pos st'.pos) with
    | some w => .ok w st'
    | none => .panicked
  | .fail => .fail
  | .panicked => .panicked

/-- `Parser::or`: ordered choice with backtracking on recoverable failure. -/
def orElse (p q : Parsec α) : Parsec α := fun st =>
  match p st with
  | .ok v st' => .ok v st'
  | .fail => q st
  | .panicked => .panicked

/-- `Parser::or_not`. -/
def orNot (p : Parsec α) : Parsec (Option α) := fun st =>
  match p st with
  | .ok v st' => .ok (some v) st'
  | .fail => .ok none st
  | .panicked => .panicked

/-- `Parser::then`. -/
def andThen (p : Parsec α) (q : Parsec β) : Parsec (α × β) := fun st =>
  match p st with
  | .ok v st' =>
    match q st' with
    | .ok w st'' => .ok (v, w) st''
    | .fail => .fail
    | .panicked => .panicked
  | .fail => .fail
  | .panicked => .panicked

/-- `Parser::then_ignore`. -/
def thenIgnore (p : Parsec α) (q : Parsec β) : Parsec α :=
  pmap (andThen p q) Prod.fst

/-- `Parser::ignore_then`. -/
def ignoreThen (p : Parsec α) (q : Parsec β) : Parsec β :=
  pmap (andThen p q) Prod.snd

/-- `just("...")`: match a literal string. -/
def just (s : String) : Parsec Unit := fun st =>
  if s.toList.isPrefixOf st.rest then
    .ok () (PState.mk (st.pos + s.toList.length) (st.rest.drop s.toList.length))
  else .fail

/-- `one_of("...")`: a single character from the given set. -/
def oneOf (s : String) : Parsec Char := fun st =>
  match st.rest with
  | [] => .fail
  | c :: cs => if s.toList.contains c then .ok c (PState.mk (st.pos + 1) cs) else .fail

/-- `none_of("...")`: a single character outside the given set. -/
def noneOf (s : String) : Parsec Char := fun st =>
  match st.rest with
  | [] => .fail
  | c :: cs => if s.toList.contains c then .fail else .ok c (PState.mk (st.pos + 1) cs)

/-- `end()`. -/
def pEnd : Parsec Unit := fun st =>
  match st.rest with
  | [] => .ok () st
  | _ :: _ => .fail

def manyAux (p : Parsec α) : Nat → PState → List α → PResult (List α)
  | 0, st, acc => .ok acc.reverse st
  | fuel + 1, st, acc =>
    match p st with
    | .ok v st' => manyAux p fuel st' (v :: acc)
    | .fail => .ok acc.reverse st
    | .panicked => .panicked

/-- `Parser::repeated` (zero or more, greedy).  Fuelled by the remaining input
length; every repeated parser in the source consumes at least one character on
success, so the fuel is never exhausted on inputs the Rust code terminates on. -/
def many (p : Parsec α) : Parsec (List α) := fun st =>
  manyAux p (st.rest.length + 1) st []

def isWs (c : Char) : Bool :=
  c = ' ' || c = '\t' || c = '\n' || c = '\r' || c = '\x0b' || c = '\x0c'

def skipWsAux : Nat → List Char → PState
  | pos, c :: cs => if isWs c then skipWsAux (pos + 1) cs else PState.mk pos (c :: cs)
  | pos, [] => PState.mk pos []

def skipWs (st : PState) : PState := skipWsAux st.pos st.rest

/-- `Parser::padded`: whitespace skipped before and after. -/
def padded (p : Parsec α) : Parsec α := fun st =>
  match p (skipWs st) with
  | .ok v st' => .ok v (skipWs st')
  | .fail => .fail
  | .panicked => .panicked

def sepByAux (item : Parsec α) (sep : String) : Nat → PState → List α → PResult (List α)
  | 0, st, acc => .ok acc.reverse st
  | fuel + 1, st, acc =>
    match just sep st with
    | .fail => .ok acc.reverse st
    | .panicked => .panicked
    | .ok _ st1 =>
      match item st1 with
      | .ok v st2 => sepByAux item sep fuel st2 (v :: acc)
      | .fail => .ok acc.reverse st
      | .panicked => .panicked

/-- `Parser::separated_by(just(sep)).allow_trailing()` (zero or more items):
items separated by `sep`, each `sep`+item step atomic with backtracking, with
one optional trailing separator. -/
def sepByTrailing (item : Parsec α) (sep : String) : Parsec (List α) := fun st =>
  match item st with
  | .fail => .ok [] st
  | .panicked => .panicked
  | .ok v st1 =>
    match sepByAux item sep (st1.rest.length + 1) st1 [v] with
    | .fail => .fail
    | .panicked => .panicked
    | .ok vs st2 =>
      match just sep st2 with
      | .ok _ st3 => .ok vs st3
      | .fail => .ok vs st2
      | .panicked => .panicked

/-- `Parser::separated_by(just(sep))` without `allow_trailing` (zero or more
items, no trailing separator). -/
def sepByPlain (item : Parsec α) (sep : String) : Parsec (List α) := fun st =>
  match item st with
  | .fail => .ok [] st
  | .panicked => .panicked
  | .ok v st1 => sepByAux item sep (st1.rest.length + 1) st1 [v]

/-- `Parser::delimited_by(just(l), just(r))`. -/
def delimitedBy (p : Parsec α) (l r : String) : Parsec α :=
  thenIgnore (ignoreThen (just l) p) (just r)

def isIdentStart (c : Char) : Bool := c.isAlpha || c = '_'

def isIdentCont (c : Char) : Bool := c.isAlphanum || c = '_'

/-- `text::ident()`: `[A-Za-z_][A-Za-z0-9_]*`. -/
def ident : Parsec String := fun st =>
  match st.rest with
  | [] => .fail
  | c :: cs =>
    if isIdentStart c then
      match manyAux (fun st' =>
        match st'.rest with
        | [] => .fail
        | d :: ds => if isIdentCont d then .ok d (PState.mk (st'.pos + 1) ds) else .fail)
        (cs.length + 1) (PState.mk (st.pos + 1) cs) [] with
      | .ok ds st' => .ok (String.mk (c :: ds)) st'
      | .fail => .fail
      | .panicked => .panicked
    else .fail

/-- `text::keyword("...")`: an identifier that must equal the keyword. -/
def keywordP (s : String) : Parsec Unit := fun st =>
  match ident st with
  | .ok v st' => if v = s then .ok () st' else .fail
  | .fail => .fail
  | .panicked => .panicked

/-- `text::int(10)`: either a single `0` or a nonzero digit followed by
further digits (no leading zeros). -/
def int10 : Parsec String := fun st =>
  match st.rest with
  | [] => .fail
  | c :: cs =>
    if c = '0' then .ok "0" (PState.mk (st.pos + 1) cs)
    else if c.isDigit then
      match manyAux (fun st' =>
        match st'.rest with
        | [] => .fail
        | d :: ds => if d.isDigit then .ok d (PState.mk (st'.pos + 1) ds) else .fail)
        (cs.length + 1) (PState.mk (st.pos + 1) cs) [] with
      | .ok ds st' => .ok (String.mk (c :: ds)) st'
      | .fail => .fail
      | .panicked => .panicked
    else .fail

end Parsec

/-!
## String helpers

Structural (kernel-reducible) counterparts of `str::replace`,
`str::split`/`splitOn` and `str::parse` as used by the embedded code.
-/

def replaceAux (pat rep : List Char) : Nat → List Char → List Char
  | 0, s => s
  | fuel + 1, s =>
    match s with
    | [] => []
    | c :: cs =>
      if pat.isPrefixOf (c :: cs) then
        rep ++ replaceAux pat rep fuel ((c :: cs).drop pat.length)
      else
        c :: replaceAux pat rep fuel cs

/-- `str::replace` (leftmost, non-overlapping; patterns here are nonempty). -/
def strReplace (s pat rep : String) : String :=
  String.mk (replaceAux pat.toList rep.toList (s.toList.length + 1) s.toList)

def splitAux (sep : List Char) : Nat → List Char → List Char → List String
  | 0, acc, s => [String.mk (acc.reverse ++ s)]
  | fuel + 1, acc, s =>
    match s with
    | [] => [String.mk acc.reverse]
    | c :: cs =>
      if sep.isPrefixOf (c :: cs) then
        String.mk acc.reverse :: splitAux sep fuel [] ((c :: cs).drop sep.length)
      else
        splitAux sep fuel (c :: acc) cs

/-- `String::splitOn` (Rust `split` on a nonempty literal separator). -/
def strSplitOn (s sep : String) : List String :=
  splitAux sep.toList (s.toList.length + 1) [] s.toList

/-- `str::parse::<uN>`-style digit-string evaluation (the range check is done
at the call sites, matching where the source checks it). -/
def digitsToNat (cs : List Char) : Option Nat :=
  if cs.isEmpty || !(cs.all Char.isDigit) then none
  else some (cs.foldl (fun a c => a * 10 + (c.toNat - '0'.toNat)) 0)


/-! ## IP addresses (`std::net::IpAddr` as used by the grammar) -/

/-- `std::net::IpAddr`: a V4 address as four octets, a V6 address as its
eight 16-bit groups. -/
inductive IpAddr where
  | V4 (a b c d : Nat)
  | V6 (gs : List Nat)
deriving DecidableEq, Repr

def isHexChar (c : Char) : Bool :=
  c.isDigit || ('a' ≤ c && c ≤ 'f') || ('A' ≤ c && c ≤ 'F')

def hexDigitVal (c : Char) : Nat :=
  if c.isDigit then c.toNat - '0'.toNat
  else if 'a' ≤ c && c ≤ 'f' then c.toNat - 'a'.toNat + 10
  else if 'A' ≤ c && c ≤ 'F' then c.toNat - 'A'.toNat + 10
  else 0

/-- One IPv6 group: one to four hex digits. -/
def parseHexGroup (s : String) : Option Nat :=
  let cs := s.toList
  if cs.length = 0 || 4 < cs.length || !(cs.all isHexChar) then none
  else some (cs.foldl (fun acc c => acc * 16 + hexDigitVal c) 0)

def parseHexGroups : List String → Option (List Nat)
  | [] => some []
  | s :: rest => do
    let v ← parseHexGroup s
    let vs ← parseHexGroups rest
    pure (v :: vs)

/-- `Ipv6Addr::from_str` on strings without `.` (the parser's character set
excludes `.`, so the embedded-IPv4 tail form cannot occur): colon-separated
hex groups with at most one `::`, eight groups in total. -/
def parseIpv6 (s : String) : Option (List Nat) :=
  match strSplitOn s "::" with
  | [whole] =>
    let gs := strSplitOn whole ":"
    if gs.length = 8 then parseHexGroups gs else none
  | [l, r] =>
    let lg := if l = "" then [] else strSplitOn l ":"
    let rg := if r = "" then [] else strSplitOn r ":"
    if lg.length + rg.length ≤ 7 then do
      let lv ← parseHexGroups lg
      let rv ← parseHexGroups rg
      pure (lv ++ List.replicate (8 - lv.length - rv.length) 0 ++ rv)
    else none
  | _ => none

def natHex (n : Nat) : String := String.mk (Nat.toDigits 16 n)

/-- Leftmost longest run of zero groups, as (start, length). -/
def longestZeroRun (gs : List Nat) : Nat × Nat :=
  let rec go (gs : List Nat) (idx : Nat) (cur : Nat × Nat) (best : Nat × Nat) : Nat × Nat :=
    match gs with
    | [] => if cur.2 > best.2 then cur else best
    | g :: rest =>
      if g = 0 then
        let cur' := (if cur.2 = 0 then idx else cur.1, cur.2 + 1)
        go rest (idx + 1) cur' best
      else
        go rest (idx + 1) (0, 0) (if cur.2 > best.2 then cur else best)
  go gs 0 (0, 0) (0, 0)

/-- `Ipv6Addr`'s `Display`: lowercase hex groups, the leftmost longest run of
two or more zero groups compressed to `::`. -/
def ipv6ToString (gs : List Nat) : String :=
  let (st, len) := longestZeroRun gs
  if len > 1 then
    let before := (gs.take st).map natHex
    let after := (gs.drop (st + len)).map natHex
    String.intercalate ":" before ++ "::" ++ String.intercalate ":" after
  else
    String.intercalate ":" (gs.map natHex)

/-- `Display` for `IpAddr`. -/
def IpAddr.toStr : IpAddr → String
  | .V4 a b c d =>
    Nat.repr a ++ "." ++ Nat.repr b ++ "." ++ Nat.repr c ++ "." ++ Nat.repr d
  | .V6 gs => ipv6ToString gs


/-!
## Grammar data model (`rule/mod.rs`, `rule/header.rs`, `rule/options.rs`)

Everything from the current (module-based) revision of the crate lives in
namespace `Meerkat`.
-/

namespace Meerkat

/-- `rule/action.rs` `enum Action`. -/
inductive Action where
  | Alert | Pass | Drop | Reject | Rejectsrc | Rejectdst | Rejectboth
  | Other (action : String)
deriving DecidableEq, Repr

/-- `impl FromStr for Action` (total: unknown actions become `Other`). -/
def Action.fromStr (s : String) : Action :=
  match s with
  | "alert" => .Alert
  | "pass" => .Pass
  | "drop" => .Drop
  | "reject" => .Reject
  | "rejectsrc" => .Rejectsrc
  | "rejectdst" => .Rejectdst
  | "rejectboth" => .Rejectboth
  | other => .Other other

/-- `impl Display for Action`. -/
def Action.toStr : Action → String
  | .Alert => "alert"
  | .Pass => "pass"
  | .Drop => "drop"
  | .Reject => "reject"
  | .Rejectsrc => "rejectsrc"
  | .Rejectdst => "rejectdst"
  | .Rejectboth => "rejectboth"
  | .Other action => action

/-- `rule/header.rs` `enum NetworkDirection`. -/
inductive NetworkDirection where
  | SrcToDst | Both | DstToSrc
  | Unrecognized (dir : String)
deriving DecidableEq, Repr

/-- `impl Display for NetworkDirection`. -/
def NetworkDirection.toStr : NetworkDirection → String
  | .SrcToDst => "->"
  | .Both => "<>"
  | .DstToSrc => "<-"
  | .Unrecognized dir => dir

/-- `rule/header.rs` `enum NetworkAddress` (the `Box` around `NegIP`'s child
is dropped; ownership is tree-shaped either way). -/
inductive NetworkAddress where
  | Any (span : Span)
  | IPAddr (ip : Spanned IpAddr)
  | CIDR (ip : Spanned IpAddr) (mask : Spanned Nat)
  | IPGroup (ips : List (NetworkAddress × Span))
  | NegIP (ip : NetworkAddress × Span)
  | IPVariable (name : Spanned String)

/-- `rule/header.rs` `enum NetworkPort`. -/
inductive NetworkPort where
  | Any (span : Span)
  | Port (port : Spanned Nat)
  | PortGroup (ports : List (NetworkPort × Span))
  | PortRange (from_ : Spanned Nat) (to_ : Spanned Nat)
  | PortOpenRange (port : Spanned Nat) (up : Bool)
  | NegPort (port : NetworkPort × Span)
  | PortVar (name : Spanned String)

mutual

/-- `impl Display for NetworkAddress`. -/
def NetworkAddress.toStr : NetworkAddress → String
  | .Any _ => "any"
  | .IPAddr (ip, _) => ip.toStr
  | .CIDR (ip, _) (mask, _) => ip.toStr ++ "/" ++ Nat.repr mask
  | .IPGroup ips => "[" ++ String.intercalate ", " (NetworkAddress.listStrs ips) ++ "]"
  | .NegIP (ip, _) => "!" ++ ip.toStr
  | .IPVariable (name, _) => "$" ++ name

def NetworkAddress.listStrs : List (Spanned NetworkAddress) → List String
  | [] => []
  | (ip, _) :: rest => ip.toStr :: NetworkAddress.listStrs rest

end

mutual

/-- `impl Display for NetworkPort` (groups joined with `,`, no space). -/
def NetworkPort.toStr : NetworkPort → String
  | .Any _ => "any"
  | .Port (port, _) => Nat.repr port
  | .PortGroup ports => "[" ++ String.intercalate "," (NetworkPort.listStrs ports) ++ "]"
  | .PortRange (f, _) (t, _) => Nat.repr f ++ ":" ++ Nat.repr t
  | .PortOpenRange (port, _) up =>
    if up then Nat.repr port ++ ":" else ":" ++ Nat.repr port
  | .NegPort (port, _) => "!" ++ port.toStr
  | .PortVar (name, _) => "$" ++ name

def NetworkPort.listStrs : List (Spanned NetworkPort) → List String
  | [] => []
  | (port, _) :: rest => port.toStr :: NetworkPort.listStrs rest

end

/-- `rule/options.rs` `enum OptionsVariable`.  The source constructor names
are `String` and `Other`; the first is rendered `Str` here because `String`
would shadow the ambient string type. -/
inductive OptionsVariable where
  | Str (s : Spanned String)
  | Other (s : Spanned String)

/-- `impl Display for OptionsVariable`: the `String` variant re-escapes
backslash, quote and semicolon (in that order); the `Other` variant prints
its text verbatim. -/
def OptionsVariable.toStr : OptionsVariable → String
  | .Str (s, _) =>
    "\"" ++ strReplace (strReplace (strReplace s "\\" "\\\\") "\"" "\\\"") ";" "\\;" ++ "\""
  | .Other (s, _) => s

/-- `rule/options.rs` `enum RuleOption`. -/
inductive RuleOption where
  | KeywordPair (keyword : Spanned String) (values : List (Spanned OptionsVariable))
  | Buffer (keyword : Spanned String)

/-- `impl Display for RuleOption`. -/
def RuleOption.toStr : RuleOption → String
  | .KeywordPair (key, _) op =>
    key ++ ": " ++ String.intercalate ", " (op.map (fun v => v.1.toStr))
  | .Buffer (keyword, _) => keyword

/-- `rule/header.rs` `struct Header` (every field optional). -/
structure Header where
  protocol : Option (Spanned String)
  source : Option (Spanned NetworkAddress)
  source_port : Option (Spanned NetworkPort)
  direction : Option (Spanned NetworkDirection)
  destination : Option (Spanned NetworkAddress)
  destination_port : Option (Spanned NetworkPort)

/-- `impl Display for Header`: each present field printed followed by a
space (the last write is empty when `destination_port` is absent). -/
def Header.toStr (h : Header) : String :=
  (match h.protocol with | some (p, _) => p ++ " " | none => "") ++
  (match h.source with | some (s, _) => s.toStr ++ " " | none => "") ++
  (match h.source_port with | some (sp, _) => sp.toStr ++ " " | none => "") ++
  (match h.direction with | some (d, _) => d.toStr ++ " " | none => "") ++
  (match h.destination with | some (d, _) => d.toStr ++ " " | none => "") ++
  (match h.destination_port with | some (dp, _) => dp.toStr ++ " " | none => "")

/-- `rule/mod.rs` `struct Rule` (`PartialEq`/`Eq` are derived in the source,
so Rust rule equality is fully structural: it coincides with Lean's `=` on
this structure). -/
structure Rule where
  action : Option (Spanned Action)
  header : Spanned Header
  options : Option (List (Spanned RuleOption))

/-- `impl Display for Rule`. -/
def Rule.toStr (r : Rule) : String :=
  (match r.action with | some (a, _) => a.toStr ++ " " | none => "") ++
  r.header.1.toStr ++
  (match r.options with
   | some opts =>
     if opts.isEmpty then "()"
     else "(" ++ String.intercalate "; " (opts.map (fun o => o.1.toStr)) ++ ";)"
   | none => "")

mutual

/-- `NetworkAddress::find_variables_with_array` (`rule/header.rs`): the
`&mut Vec` accumulator becomes an explicit list argument, `push` appends. -/
def NetworkAddress.find_variables_with_array :
    NetworkAddress → Option String → List (Spanned String) → List (Spanned String)
  | .Any _, _, vector => vector
  | .IPAddr _, _, vector => vector
  | .CIDR _ _, _, vector => vector
  | .IPGroup group, name, vector => NetworkAddress.findVarsList group name vector
  | .NegIP (ip, _), name, vector => ip.find_variables_with_array name vector
  | .IPVariable var, name, vector =>
    match name with
    | some n => if n = var.1 then vector ++ [var] else vector
    | none => vector ++ [var]

def NetworkAddress.findVarsList :
    List (Spanned NetworkAddress) → Option String → List (Spanned String) → List (Spanned String)
  | [], _, vector => vector
  | (ip, _) :: rest, name, vector =>
    NetworkAddress.findVarsList rest name (ip.find_variables_with_array name vector)

end

mutual

/-- `NetworkPort::find_variables_with_array` (`rule/header.rs`). -/
def NetworkPort.find_variables_with_array :
    NetworkPort → Option String → List (Spanned String) → List (Spanned String)
  | .PortGroup group, name, vector => NetworkPort.findVarsList group name vector
  | .NegPort (port, _), name, vector => port.find_variables_with_array name vector
  | .PortVar var, name, vector =>
    match name with
    | some n => if n = var.1 then vector ++ [var] else vector
    | none => vector ++ [var]
  | .Any _, _, vector => vector
  | .Port _, _, vector => vector
  | .PortRange _ _, _, vector => vector
  | .PortOpenRange _ _, _, vector => vector

def NetworkPort.findVarsList :
    List (Spanned NetworkPort) → Option String → List (Spanned String) → List (Spanned String)
  | [], _, vector => vector
  | (port, _) :: rest, name, vector =>
    NetworkPort.findVarsList rest name (port.find_variables_with_array name vector)

end

/-- `NetworkAddress::find_variables`. -/
def NetworkAddress.find_variables (a : NetworkAddress) (name : Option String) :
    Option (List (Spanned String)) :=
  let ret := a.find_variables_with_array name []
  if ret.length = 0 then none else some ret

/-- `NetworkPort::find_variables`. -/
def NetworkPort.find_variables (p : NetworkPort) (name : Option String) :
    Option (List (Spanned String)) :=
  let ret := p.find_variables_with_array name []
  if ret.length = 0 then none else some ret

end Meerkat

/-!
## Parser (`parser.rs`)

Each definition mirrors one chumsky sub-parser of the source, in source
order.  The two recursive grammars (`NetworkAddress`, `NetworkPort`) take a
fuel argument standing for chumsky's `recursive`; every nesting level of the
source grammar consumes at least one character (`[` or `!`), so fuel
`input length + 1` reproduces the Rust behaviour on every input.
-/

namespace Meerkat
open Parsec

/-- `digit` inside `NetworkAddress::parser`: `text::int(10)` checked against
`u8` via `try_map` (a recoverable diagnostic for values above 255). -/
def digitP : Parsec Nat :=
  tryMap int10 (fun s _ =>
    match digitsToNat s.toList with
    | some n => if n ≤ 255 then some n else none
    | none => none)

/-- `any` inside `NetworkAddress::parser`. -/
def addrAnyP : Parsec (NetworkAddress × Span) :=
  mapWithSpan (keywordP "any") (fun _ span => (NetworkAddress.Any span, span))

/-- `ipv4`: four `digit`s separated by `.` (`separated_by(just(".")).exactly(4)`). -/
def ipv4P : Parsec (NetworkAddress × Span) :=
  mapWithSpan
    (andThen digitP
      (andThen (ignoreThen (just ".") digitP)
        (andThen (ignoreThen (just ".") digitP) (ignoreThen (just ".") digitP))))
    (fun v span =>
      match v with
      | (a, b, c, d) => (NetworkAddress.IPAddr (IpAddr.V4 a b c d, span), span))

/-- `ipv6`: a run of hex/colon characters parsed by `Ipv6Addr::from_str`
via `try_map` (a recoverable failure when it is not an IPv6 literal). -/
def ipv6P : Parsec (NetworkAddress × Span) :=
  tryMap (pmap (many (oneOf "0123456789abcdefABCDEF:")) (fun cs => String.mk cs))
    (fun s span =>
      match parseIpv6 s with
      | some gs => some (NetworkAddress.IPAddr (IpAddr.V6 gs, span), span)
      | none => none)

/-- `ip = ipv6.or(ipv4)`. -/
def ipP : Parsec (NetworkAddress × Span) := orElse ipv6P ipv4P

/-- The CIDR mask: `text::int(10).map_with_span(|mask, span|
(mask.parse::<u8>().unwrap(), span))` — the `unwrap` panics above 255. -/
def maskP : Parsec (Spanned Nat) :=
  mapUnwrap int10 (fun s span =>
    match digitsToNat s.toList with
    | some n => if n ≤ 255 then some (n, span) else none
    | none => none)

/-- `cidr`: `ip` then `/` then the mask; the `try_map` demands the left
operand be a bare `IPAddr`. -/
def cidrP : Parsec (NetworkAddress × Span) :=
  tryMap (andThen (thenIgnore ipP (just "/")) maskP)
    (fun v span =>
      match v with
      | ((ipVal, _), mask) =>
        match ipVal with
        | NetworkAddress.IPAddr ip => some (NetworkAddress.CIDR ip mask, span)
        | _ => none)

/-- `ip_variable`: `$` followed by an identifier (span covers the `$`). -/
def ipVariableP : Parsec (NetworkAddress × Span) :=
  mapWithSpan (ignoreThen (just "$") ident)
    (fun name span => (NetworkAddress.IPVariable (name, span), span))

/-- `NetworkAddress::parser()` with explicit fuel for `recursive`. -/
def addressPF : Nat → Parsec (NetworkAddress × Span)
  | 0 => fun _ => .fail
  | fuel + 1 =>
    let ip_group : Parsec (NetworkAddress × Span) :=
      mapWithSpan (delimitedBy (sepByTrailing (addressPF fuel) ",") "[" "]")
        (fun ips span => (NetworkAddress.IPGroup ips, span))
    let negated_ip : Parsec (NetworkAddress × Span) :=
      mapWithSpan
        (ignoreThen (just "!") (orElse ipVariableP (orElse ip_group (orElse cidrP ipP))))
        (fun ip span => (NetworkAddress.NegIP ip, span))
    padded
      (orElse ipVariableP
        (orElse negated_ip
          (orElse ip_group (orElse cidrP (orElse ipP addrAnyP)))))

/-- `NetworkAddress::parser()`. -/
def NetworkAddress.parserFn : Parsec (NetworkAddress × Span) := fun st =>
  addressPF (st.rest.length + 1) st

/-- `number` inside `NetworkPort::parser`: `text::int(10)` whose closure
builds the error for values above `u16` and then immediately `unwrap`s it —
a panic, not a diagnostic. -/
def numberP : Parsec (Spanned Nat) :=
  mapUnwrap int10 (fun s span =>
    match digitsToNat s.toList with
    | some n => if n ≤ 65535 then some (n, span) else none
    | none => none)

/-- `any` inside `NetworkPort::parser`. -/
def portAnyP : Parsec (NetworkPort × Span) :=
  mapWithSpan (keywordP "any") (fun _ span => (NetworkPort.Any span, span))

/-- `port_number`. -/
def portNumberP : Parsec (NetworkPort × Span) :=
  padded (pmap numberP (fun v => (NetworkPort.Port (v.1, v.2), v.2)))

/-- `port_range`: `number? ":" number?`, rejecting the bare `":"` with a
recoverable error; note both open ranges are built with `false` and carry
the number's span, exactly as in the source. -/
def portRangeP : Parsec (NetworkPort × Span) :=
  tryMap (andThen (thenIgnore (orNot numberP) (just ":")) (orNot numberP))
    (fun v span =>
      match v with
      | (none, none) => none
      | (none, some (port, sp)) => some (NetworkPort.PortOpenRange (port, sp) false, sp)
      | (some (port, sp), none) => some (NetworkPort.PortOpenRange (port, sp) false, sp)
      | (some f, some t) => some (NetworkPort.PortRange f t, span))

/-- `port_variable`: `$` followed by an identifier. -/
def portVariableP : Parsec (NetworkPort × Span) :=
  mapWithSpan (ignoreThen (just "$") ident)
    (fun name span => (NetworkPort.PortVar (name, span), span))

/-- `NetworkPort::parser()` with explicit fuel for `recursive`. -/
def portPF : Nat → Parsec (NetworkPort × Span)
  | 0 => fun _ => .fail
  | fuel + 1 =>
    let port_group : Parsec (NetworkPort × Span) :=
      mapWithSpan (delimitedBy (sepByTrailing (portPF fuel) ",") "[" "]")
        (fun ports span => (NetworkPort.PortGroup ports, span))
    let negated_port : Parsec (NetworkPort × Span) :=
      mapWithSpan
        (ignoreThen (just "!")
          (orElse portVariableP (orElse port_group (orElse portRangeP portNumberP))))
        (fun ports span => (NetworkPort.NegPort ports, span))
    padded
      (orElse negated_port
        (orElse portVariableP
          (orElse port_group (orElse portRangeP (orElse portNumberP portAnyP)))))

/-- `NetworkPort::parser()`. -/
def NetworkPort.parserFn : Parsec (NetworkPort × Span) := fun st =>
  portPF (st.rest.length + 1) st

/-- `NetworkDirection::parser()`: a run (possibly empty) of `<`, `-`, `>`
characters, mapped onto the three known arrows or `Unrecognized`. -/
def NetworkDirection.parserFn : Parsec (NetworkDirection × Span) :=
  mapWithSpan (pmap (many (oneOf "<->")) (fun cs => String.mk cs))
    (fun dir span =>
      match dir with
      | "->" => (NetworkDirection.SrcToDst, span)
      | "<>" => (NetworkDirection.Both, span)
      | "<-" => (NetworkDirection.DstToSrc, span)
      | el => (NetworkDirection.Unrecognized el, span))

/-- `escaped_chars`: `\` followed by one of `"`, `;`, `\`; the result is the
escaped character itself. -/
def escapedCharsP : Parsec Char :=
  ignoreThen (just "\\") (oneOf "\";\\")

/-- `unescaped_value`: escaped characters or anything but `;`/`,`
(possibly empty), collected into an `Other` value. -/
def unescapedValueP : Parsec (OptionsVariable × Span) :=
  mapWithSpan (pmap (many (orElse escapedCharsP (noneOf ";,"))) (fun cs => String.mk cs))
    (fun s span => (OptionsVariable.Other (s, span), span))

/-- `string_value`: a quote-delimited run of escaped or non-quote
characters; note `padded()` sits inside `map_with_span`, so the span covers
surrounding whitespace. -/
def stringValueP : Parsec (OptionsVariable × Span) :=
  mapWithSpan
    (padded (pmap (delimitedBy (many (orElse escapedCharsP (noneOf "\""))) "\"" "\"")
      (fun cs => String.mk cs)))
    (fun s span => (OptionsVariable.Str (s, span), span))

/-- `keyword`: any run of characters other than `:`, `;`, `)` (possibly
empty), `padded` inside `map_with_span`. -/
def optKeywordP : Parsec (Spanned String) :=
  mapWithSpan (padded (pmap (many (noneOf ":;)")) (fun cs => String.mk cs)))
    (fun keyword span => (keyword, span))

/-- `keyword_pair`: `keyword ":" value ("," value)*`
(`separated_by(just(","))`, no trailing separator). -/
def keywordPairP : Parsec (RuleOption × Span) :=
  mapWithSpan
    (padded (andThen (thenIgnore (padded optKeywordP) (just ":"))
      (sepByPlain (padded (orElse stringValueP unescapedValueP)) ",")))
    (fun v span =>
      match v with
      | (keyword, options) => (RuleOption.KeywordPair keyword options, span))

/-- `buffer`: a bare keyword. -/
def bufferP : Parsec (RuleOption × Span) :=
  mapWithSpan (padded optKeywordP) (fun buffer span => (RuleOption.Buffer buffer, span))

/-- `RuleOption::parser()`. -/
def RuleOption.parserFn : Parsec (RuleOption × Span) := orElse keywordPairP bufferP

/-- `options` inside `Rule::parser`: option list separated by `;` with an
allowed trailing `;`, between parentheses, padded. -/
def optionsP : Parsec (List (RuleOption × Span)) :=
  padded (delimitedBy (sepByTrailing RuleOption.parserFn ";") "(" ")")

/-- `action` inside `Rule::parser`. -/
def actionP : Parsec (Spanned String) :=
  mapWithSpan (padded ident) (fun action span => (action, span))

/-- `Header::parser()`. -/
def Header.parserFn : Parsec (Header × Span) :=
  let protocol := mapWithSpan ident (fun protocol span => (protocol, span))
  let address_port_combined :=
    andThen (padded (orNot NetworkAddress.parserFn)) (padded (orNot NetworkPort.parserFn))
  mapWithSpan
    (andThen
      (andThen (andThen (orNot protocol) address_port_combined)
        (padded (orNot NetworkDirection.parserFn)))
      address_port_combined)
    (fun v span =>
      match v with
      | (((protocol, source), direction), destination) =>
        (Header.mk protocol source.1 source.2 direction destination.1 destination.2, span))

/-- `Rule::parser()`: `action? header options? end`, the action string run
through `Action::from_str` (infallible). -/
def Rule.parserFn : Parsec (Rule × Span) :=
  mapWithSpan
    (thenIgnore
      (andThen (andThen (orNot actionP) (padded Header.parserFn)) (orNot optionsP))
      pEnd)
    (fun v span =>
      match v with
      | ((action, header), options) =>
        (Rule.mk (action.map (fun a => (Action.fromStr a.1, a.2))) header options, span))

/-- Run `Rule::parser` on one line of text. -/
def parseLine (s : String) : PResult (Rule × Span) :=
  Rule.parserFn (PState.mk 0 s.toList)

end Meerkat

/-!
## Legacy flat data model (`rule.rs`) and its consumers
(`hover.rs`, `reference.rs`, `completion.rs`)

These three provider files import the flat `rule.rs` revision of the data
model, in which every header field is present (not `Option`) and
`NetworkAddress::Any`/`NetworkPort::Port` carry no span.  `HashMap` becomes
an association list and `HashSet` an insertion-ordered duplicate-free list;
iteration follows storage order.  `NetworkDirection`, `RuleOption` and
`OptionsVariable` are structurally identical across the two revisions, so the
`Meerkat` versions are reused here.
-/

namespace Legacy

/-- `rule.rs` `enum NetworkAddress` (no span on `Any`). -/
inductive NetworkAddress where
  | Any
  | IPAddr (ip : Spanned IpAddr)
  | CIDR (ip : Spanned IpAddr) (mask : Spanned Nat)
  | IPGroup (ips : List (NetworkAddress × Span))
  | NegIP (ip : NetworkAddress × Span)
  | IPVariable (name : Spanned String)

/-- `rule.rs` `enum NetworkPort` (no span on `Any`/`Port`). -/
inductive NetworkPort where
  | Any
  | Port (port : Nat)
  | PortGroup (ports : List (NetworkPort × Span))
  | PortRange (from_ : Spanned Nat) (to_ : Spanned Nat)
  | PortOpenRange (port : Spanned Nat) (up : Bool)
  | NegPort (port : NetworkPort × Span)
  | PortVar (name : Spanned String)

/-- `rule.rs` `struct Header`: every field present. -/
structure Header where
  protocol : Spanned String
  source : Spanned NetworkAddress
  source_port : Spanned NetworkPort
  direction : Spanned Meerkat.NetworkDirection
  destination : Spanned NetworkAddress
  destination_port : Spanned NetworkPort

/-- `rule.rs` `struct Rule`. -/
structure Rule where
  action : Spanned String
  header : Spanned Header
  options : List (Meerkat.RuleOption × Span)

/-- `rule.rs` `struct AST`: `HashMap<u32, (Rule, Span)>` as an association
list keyed by line number. -/
structure AST where
  rules : List (Nat × (Rule × Span))

mutual

/-- `rule.rs` `NetworkAddress::find_variables_with_array`. -/
def NetworkAddress.find_variables_with_array :
    NetworkAddress → Option String → List (Spanned String) → List (Spanned String)
  | .Any, _, vector => vector
  | .IPAddr _, _, vector => vector
  | .CIDR _ _, _, vector => vector
  | .IPGroup group, name, vector => NetworkAddress.findVarsList group name vector
  | .NegIP (ip, _), name, vector => ip.find_variables_with_array name vector
  | .IPVariable var, name, vector =>
    match name with
    | some n => if n = var.1 then vector ++ [var] else vector
    | none => vector ++ [var]

def NetworkAddress.findVarsList :
    List (NetworkAddress × Span) → Option String → List (Spanned String) → List (Spanned String)
  | [], _, vector => vector
  | (ip, _) :: rest, name, vector =>
    NetworkAddress.findVarsList rest name (ip.find_variables_with_array name vector)

end

/-- `rule.rs` `Header::find_address_variables`: source then destination. -/
def Header.find_address_variables (h : Header) (name : Option String)
    (vars : List (Spanned String)) : List (Spanned String) :=
  (h.destination.1).find_variables_with_array name
    ((h.source.1).find_variables_with_array name vars)

mutual

/-- `rule.rs` `NetworkPort::find_variables_with_array`. -/
def NetworkPort.find_variables_with_array :
    NetworkPort → Option String → List (Spanned String) → List (Spanned String)
  | .PortGroup group, name, vector => NetworkPort.findVarsList group name vector
  | .NegPort (port, _), name, vector => port.find_variables_with_array name vector
  | .PortVar var, name, vector =>
    match name with
    | some n => if n = var.1 then vector ++ [var] else vector
    | none => vector ++ [var]
  | .Any, _, vector => vector
  | .Port _, _, vector => vector
  | .PortRange _ _, _, vector => vector
  | .PortOpenRange _ _, _, vector => vector

def NetworkPort.findVarsList :
    List (NetworkPort × Span) → Option String → List (Spanned String) → List (Spanned String)
  | [], _, vector => vector
  | (port, _) :: rest, name, vector =>
    NetworkPort.findVarsList rest name (port.find_variables_with_array name vector)

end

/-- `rule.rs` `Header::find_port_variables`: source port then destination
port. -/
def Header.find_port_variables (h : Header) (name : Option String)
    (vars : List (Spanned String)) : List (Spanned String) :=
  (h.destination_port.1).find_variables_with_array name
    ((h.source_port.1).find_variables_with_array name vars)

/-! ### External collaborators: keyword dictionary, LSP item shapes, `ipnet` -/

/-- `suricata.rs`/`completion.rs` `struct KeywordRecord`. -/
structure KeywordRecord where
  name : String
  description : String
  app_layer : String
  features : String
  documentation : String

/-- `suricata.rs`/`completion.rs` `enum Keyword`. -/
inductive Keyword where
  | NoOption (record : KeywordRecord)
  | Other (record : KeywordRecord)

/-- `tower_lsp` `MarkupContent` (the `kind` field is constantly Markdown and
is omitted). -/
structure MarkupContent where
  value : String

/-- `tower_lsp` `HoverContents` (only the `Markup` constructor is used). -/
inductive HoverContents where
  | Markup (content : MarkupContent)

/-- `tower_lsp` `CompletionItemKind` (the constructors the crate uses). -/
inductive CompletionItemKind where
  | VARIABLE | KEYWORD | VALUE | CONSTANT | OPERATOR
deriving DecidableEq, Repr

/-- `tower_lsp` `CompletionItem`, restricted to the fields the crate sets
(everything else is `Default::default()`). -/
structure CompletionItem where
  label : String
  insert_text : Option String
  kind : Option CompletionItemKind
  detail : Option String
deriving DecidableEq, Repr

/-- 32-bit value of an IPv4 address. -/
def v4ToNat (a b c d : Nat) : Nat := ((a * 256 + b) * 256 + c) * 256 + d

/-- The four octets of a 32-bit value. -/
def natToV4 (n : Nat) : IpAddr :=
  IpAddr.V4 (n / 2 ^ 24 % 256) (n / 2 ^ 16 % 256) (n / 2 ^ 8 % 256) (n % 256)

/-- 128-bit value of an IPv6 address from its groups. -/
def v6ToNat (gs : List Nat) : Nat := gs.foldl (fun acc g => acc * 65536 + g) 0

def natToV6 (n : Nat) : IpAddr :=
  IpAddr.V6 ((List.range 8).map (fun i => n / 2 ^ (16 * (7 - i)) % 65536))

/-- The `ipnet` crate's `IpNet`, modelled from its documented semantics
(external collaborator): an address plus prefix length. -/
structure IpNet where
  addr : IpAddr
  prefix_len : Nat

/-- `IpNet::new`: errors when the prefix length exceeds the address width. -/
def IpNet.new (addr : IpAddr) (prefix_len : Nat) : Option IpNet :=
  match addr with
  | .V4 _ _ _ _ => if prefix_len ≤ 32 then some ⟨addr, prefix_len⟩ else none
  | .V6 _ => if prefix_len ≤ 128 then some ⟨addr, prefix_len⟩ else none

/-- `IpNet::network`: host bits zeroed. -/
def IpNet.network (net : IpNet) : IpAddr :=
  match net.addr with
  | .V4 a b c d =>
    let n := v4ToNat a b c d
    natToV4 (n - n % 2 ^ (32 - net.prefix_len))
  | .V6 gs =>
    let n := v6ToNat gs
    natToV6 (n - n % 2 ^ (128 - net.prefix_len))

/-- `IpNet::broadcast`: host bits set. -/
def IpNet.broadcast (net : IpNet) : IpAddr :=
  match net.addr with
  | .V4 a b c d =>
    let n := v4ToNat a b c d
    natToV4 (n - n % 2 ^ (32 - net.prefix_len) + (2 ^ (32 - net.prefix_len) - 1))
  | .V6 gs =>
    let n := v6ToNat gs
    natToV6 (n - n % 2 ^ (128 - net.prefix_len) + (2 ^ (128 - net.prefix_len) - 1))

/-! ### `hover.rs` -/

mutual

/-- `hover.rs` `hover_for_address`, with the `Spanned` pair split into two
arguments so the recursion is structural: hover content exists exactly for
CIDR nodes (`**network** - **broadcast**`, carrying the address node's
span). -/
def hoverAddr : NetworkAddress → Span → Nat → Option (HoverContents × Span)
  | .Any, _, _ => none
  | .IPAddr _, _, _ => none
  | .CIDR (ip, _) (mask, _), span, _ =>
    match IpNet.new ip mask with
    | some range =>
      some (HoverContents.Markup
        ⟨"**" ++ (range.network).toStr ++ "** - **" ++ (range.broadcast).toStr ++ "**"⟩,
        span)
    | none => none
  | .IPGroup group, _, col => hoverGroupFind group col
  | .NegIP (ip, sp), _, col => hoverAddr ip sp col
  | .IPVariable _, _, _ => none

/-- `group.iter().find(|(_, span)| span.contains(col))?` then recurse. -/
def hoverGroupFind : List (NetworkAddress × Span) → Nat → Option (HoverContents × Span)
  | [], _ => none
  | (ip, sp) :: rest, col =>
    if sp.containsOff col then hoverAddr ip sp col else hoverGroupFind rest col

end

/-- `hover.rs` `hover_for_address` on a `Spanned` address. -/
def hover_for_address (address : NetworkAddress × Span) (col : Nat) :
    Option (HoverContents × Span) :=
  hoverAddr address.1 address.2 col

/-- `hover.rs` `hover_for_header`.  The source calls `hover_for_address` on
the matching side but discards the result (the calls are statements, not
`return`s) and falls through to `None` on every path; the discarded calls
are kept here as dead bindings. -/
def hover_for_header (header : Header × Span) (col : Nat) : Option (HoverContents × Span) :=
  let (header, _) := header
  if (header.source.2).containsOff col then
    let _ := hover_for_address header.source col
    none
  else if (header.destination.2).containsOff col then
    let _ := hover_for_address header.destination col
    none
  else
    none

/-- `hover.rs` `get_contents_for_keyword`. -/
def get_contents_for_keyword (keyword : String) (keywords : List (String × Keyword))
    (span : Span) : Option (HoverContents × Span) := do
  let record ← (keywords.find? (fun e => e.1 = keyword)).map (fun e => e.2)
  let kw :=
    match record with
    | .NoOption k => k
    | .Other k => k
  pure (HoverContents.Markup
    ⟨"#" ++ kw.name ++ "\n## Description\n" ++ kw.description ++
      "\n## Documentation\n" ++ kw.documentation⟩, span)

/-- `hover.rs` `hover_for_options`. -/
def hover_for_options (options : List (Meerkat.RuleOption × Span)) (col : Nat)
    (keywords : List (String × Keyword)) : Option (HoverContents × Span) := do
  let found ← options.find? (fun e => e.2.containsOff col)
  match found.1 with
  | .KeywordPair (keyword, span) _ =>
    if span.containsOff col then get_contents_for_keyword keyword keywords span else none
  | .Buffer (keyword, span) => get_contents_for_keyword keyword keywords span

/-- `hover.rs` `get_hover`: look up the rule by line, try the header, then
the options. -/
def get_hover (ast : AST) (line : Nat) (col : Nat) (keywords : List (String × Keyword)) :
    Option (HoverContents × Span) := do
  let entry ← ast.rules.find? (fun e => e.1 = line)
  let rule := entry.2.1
  (hover_for_header rule.header col).orElse
    (fun _ => hover_for_options rule.options col keywords)

/-! ### `reference.rs` -/

mutual

/-- `reference.rs` `get_address_from_offset`: locate the variable leaf whose
span contains the offset. -/
def get_address_from_offset : NetworkAddress → Nat → Option String
  | .IPGroup group, off => gafoGroup group off
  | .NegIP (ip, sp), off =>
    if sp.containsOff off then get_address_from_offset ip off else none
  | .IPVariable (name, span), off => if span.containsOff off then some name else none
  | .Any, _ => none
  | .IPAddr _, _ => none
  | .CIDR _ _, _ => none

def gafoGroup : List (NetworkAddress × Span) → Nat → Option String
  | [], _ => none
  | (ip, sp) :: rest, off =>
    if sp.containsOff off then get_address_from_offset ip off else gafoGroup rest off

end

/-- `reference.rs` `get_variable_name`: find the rule whose span contains the
offset, then search its source and destination addresses. -/
def get_variable_name (ast : AST) (ident_offset : Nat) : Option String := do
  let entry ← ast.rules.find? (fun e => e.2.2.containsOff ident_offset)
  let rule := entry.2.1
  (get_address_from_offset rule.header.1.source.1 ident_offset).orElse
    (fun _ => get_address_from_offset rule.header.1.destination.1 ident_offset)

mutual

/-- `reference.rs` `get_variable_from_address`: collect every occurrence of
the named variable (the `&mut Vec` accumulator is an explicit argument). -/
def get_variable_from_address :
    NetworkAddress → String → List (Spanned String) → List (Spanned String)
  | .IPGroup group, v, acc => gvfaGroup group v acc
  | .NegIP (ip, _), v, acc => get_variable_from_address ip v acc
  | .IPVariable var_name, v, acc => if v = var_name.1 then acc ++ [var_name] else acc
  | .Any, _, acc => acc
  | .IPAddr _, _, acc => acc
  | .CIDR _ _, _, acc => acc

def gvfaGroup : List (NetworkAddress × Span) → String → List (Spanned String) → List (Spanned String)
  | [], _, acc => acc
  | (ip, _) :: rest, v, acc => gvfaGroup rest v (get_variable_from_address ip v acc)

end

/-- `reference.rs` `get_variable_with_name`: fold the collection over every
rule, source then destination. -/
def get_variable_with_name (ast : AST) (varName : String) : List (Spanned String) :=
  ast.rules.foldl
    (fun acc e =>
      get_variable_from_address e.2.1.header.1.destination.1 varName
        (get_variable_from_address e.2.1.header.1.source.1 varName acc))
    []

/-- `reference.rs` `get_reference`: resolve the variable at the offset, then
collect all its occurrences; when `include_self` is false, keep only
occurrences whose span does not contain the originating offset. -/
def get_reference (ast : AST) (ident_offset : Nat) (include_self : Bool) :
    List (Spanned String) :=
  match get_variable_name ast ident_offset with
  | some variable_name =>
    let reference_list := get_variable_with_name ast variable_name
    if !include_self then
      reference_list.filter (fun reference => !(reference.2.containsOff ident_offset))
    else
      reference_list
  | none => []

/-! ### `completion.rs` -/

/-- `completion.rs` `search_for_address_variables`: insert every variable
name into the (insertion-ordered) set. -/
def hashInsert (s : List String) (x : String) : List String :=
  if x ∈ s then s else s ++ [x]

mutual

def search_for_address_variables : NetworkAddress → List String → List String
  | .IPGroup group, s => sfavGroup group s
  | .NegIP (ip, _), s => search_for_address_variables ip s
  | .IPVariable (var_name, _), s => hashInsert s var_name
  | .Any, s => s
  | .IPAddr _, s => s
  | .CIDR _ _, s => s

def sfavGroup : List (NetworkAddress × Span) → List String → List String
  | [], s => s
  | (ip, _) :: rest, s => sfavGroup rest (search_for_address_variables ip s)

end

mutual

/-- `completion.rs` `search_for_port_variables`. -/
def search_for_port_variables : NetworkPort → List String → List String
  | .PortGroup group, s => sfpvGroup group s
  | .NegPort (port, _), s => search_for_port_variables port s
  | .PortVar (var_name, _), s => hashInsert s var_name
  | .Any, s => s
  | .Port _, s => s
  | .PortRange _ _, s => s
  | .PortOpenRange _ _, s => s

def sfpvGroup : List (NetworkPort × Span) → List String → List String
  | [], s => s
  | (port, _) :: rest, s => sfpvGroup rest (search_for_port_variables port s)

end

/-- `completion.rs` `get_variables_from_ast`, rule by rule: run the two
searches over every rule's addresses (`rule.addresses()` = source,
destination) and ports. -/
def get_variables_from_ast_list :
    List (Nat × (Rule × Span)) → List String → List String → List String × List String
  | [], address_variables, port_variables => (address_variables, port_variables)
  | e :: rest, address_variables, port_variables =>
    let rule := e.2.1
    get_variables_from_ast_list rest
      (search_for_address_variables rule.header.1.destination.1
        (search_for_address_variables rule.header.1.source.1 address_variables))
      (search_for_port_variables rule.header.1.destination_port.1
        (search_for_port_variables rule.header.1.source_port.1 port_variables))

/-- `completion.rs` `get_variables_from_ast`. -/
def get_variables_from_ast (ast : AST) (address_variables port_variables : List String) :
    List String × List String :=
  get_variables_from_ast_list ast.rules address_variables port_variables

/-- `completion.rs` `get_completion_for_address`: one `VARIABLE` item per
known variable name (label, inserted text and detail are all the name). -/
def get_completion_for_address (vars : List String)
    (completion_tokens : List CompletionItem) : List CompletionItem :=
  completion_tokens ++ vars.map (fun var =>
    CompletionItem.mk var (some var) (some .VARIABLE) (some var))

/-- `completion.rs` `get_completion_for_port`. -/
def get_completion_for_port (vars : List String)
    (completion_tokens : List CompletionItem) : List CompletionItem :=
  completion_tokens ++ vars.map (fun var =>
    CompletionItem.mk var (some var) (some .VARIABLE) (some var))

/-- `completion.rs` `get_completion_for_option_keywords`: a `NoOption`
keyword inserts `name; `; any other keyword inserts the bare `name`. -/
def get_completion_for_option_keywords (keywords : List (String × Keyword))
    (completion_tokens : List CompletionItem) : List CompletionItem :=
  completion_tokens ++ keywords.map (fun e =>
    match e.2 with
    | .NoOption record =>
      CompletionItem.mk record.name (some (record.name ++ "; ")) (some .KEYWORD)
        (some record.description)
    | .Other record =>
      CompletionItem.mk record.name (some record.name) (some .KEYWORD)
        (some record.description))

/-- `completion.rs` `get_completion`.  The source reads
`line.get_char(offset - 1)?` (propagating a missing character) and branches
on whether that character is `$`; any other preceding character falls into
the keyword branch.  The unused `vars` parameter mirrors the source's unused
`variables` argument.
`offset - 1` is `Nat` subtraction; the theorems below only instantiate it
with `offset ≥ 1`, where it agrees with the `usize` arithmetic. -/
def get_completion (line : List Char) (ast : AST) (offset : Nat)
    (vars : List String × List String) (keywords : List (String × Keyword)) :
    Option (List CompletionItem) := do
  let _ := vars
  let avpv := get_variables_from_ast ast [] []
  let c ← line.get? (offset - 1)
  if c = '$' then
    pure (get_completion_for_port avpv.2 (get_completion_for_address avpv.1 []))
  else
    pure (get_completion_for_option_keywords keywords [])

end Legacy

/-!
## Observers used by the claim theorems
-/

namespace Meerkat

/-- The parsed `Rule` of a line, when parsing succeeds. -/
def parsedRule (s : String) : Option Rule :=
  match parseLine s with
  | .ok (r, _) _ => some r
  | _ => none

/-- Parse, render with `Display`, and re-parse. -/
def renderedReparse (s : String) : Option Rule :=
  (parsedRule s).bind (fun r => parsedRule r.toStr)

/-- Number of stored options. -/
def ruleOptionCount (r : Rule) : Nat := (r.options.getD []).length

/-- The value texts of each option, in storage order. -/
def ruleOptionValueTexts (r : Rule) : List (List String) :=
  (r.options.getD []).map (fun o =>
    match o.1 with
    | .KeywordPair _ values =>
      values.map (fun v =>
        match v.1 with
        | .Str (s, _) => s
        | .Other (s, _) => s)
    | .Buffer _ => [])

/-- The keyword of an option. -/
def optionKeyword : RuleOption → String
  | .KeywordPair (key, _) _ => key
  | .Buffer (keyword, _) => keyword

end Meerkat

/-!
## Claim theorems
-/

set_option maxHeartbeats 4000000 in
/-- C1: the spec's round-trip property fails on the code.  On the spec's own
example rule the parser stores three options (the trailing `;` inside `(...)`
manufactures a zero-width empty `Buffer`), the formatter then renders
`...; ;)`, and re-parsing yields four options — not a structurally equal
Rule.  On the second input the stored `Other` value `a;b` (written `a\;b`)
is rendered without re-escaping the semicolon, so re-parsing splits the
single option apart. -/
theorem c1_roundtrip_violation :
    (Meerkat.parsedRule "alert tcp $HOME_NET any -> $EXTERNAL_NET any (msg: \"test\"; sid: 1;)").map
        Meerkat.ruleOptionCount = some 3 ∧
    (Meerkat.renderedReparse "alert tcp $HOME_NET any -> $EXTERNAL_NET any (msg: \"test\"; sid: 1;)").map
        Meerkat.ruleOptionCount = some 4 ∧
    Meerkat.renderedReparse "alert tcp $HOME_NET any -> $EXTERNAL_NET any (msg: \"test\"; sid: 1;)" ≠
      Meerkat.parsedRule "alert tcp $HOME_NET any -> $EXTERNAL_NET any (msg: \"test\"; sid: 1;)" ∧
    (Meerkat.parsedRule "(msg: a\\;b;)").map Meerkat.ruleOptionValueTexts = some [["a;b"], []] ∧
    (Meerkat.renderedReparse "(msg: a\\;b;)").map Meerkat.ruleOptionValueTexts =
      some [["a"], [], [], []] := by
  have h3 : (Meerkat.parsedRule "alert tcp $HOME_NET any -> $EXTERNAL_NET any (msg: \"test\"; sid: 1;)").map
      Meerkat.ruleOptionCount = some 3 := rfl
  have h4 : (Meerkat.renderedReparse "alert tcp $HOME_NET any -> $EXTERNAL_NET any (msg: \"test\"; sid: 1;)").map
      Meerkat.ruleOptionCount = some 4 := rfl
  refine ⟨h3, h4, ?_, rfl, rfl⟩
  intro h
  rw [h, h3] at h4
  exact absurd h4 (by decide)

/-- C2: an out-of-range port (greater than 65535) or an out-of-range CIDR
mask (greater than 255) does not produce a recoverable diagnostic — the
closures call `Result::unwrap` on the range error, which panics (aborts the
parse).  By contrast the IPv4 octet parser (`digit`) uses `try_map`
correctly and fails recoverably. -/
theorem c2_out_of_range_panics :
    Meerkat.parseLine "alert tcp any 70000 -> any any" = .panicked ∧
    Meerkat.parseLine "alert tcp 1.2.3.4/300 -> any any" = .panicked ∧
    Meerkat.NetworkPort.parserFn (PState.mk 0 "70000".toList) = .panicked ∧
    Meerkat.maskP (PState.mk 0 "300".toList) = .panicked ∧
    Meerkat.digitP (PState.mk 0 "300".toList) = .fail :=
  ⟨rfl, rfl, rfl, rfl, rfl⟩

/-- A document whose line 0 is `alert tcp 192.168.0.0/16 any -> any any`,
with the spans the parser would assign. -/
def c3Source : Legacy.NetworkAddress × Span :=
  (Legacy.NetworkAddress.CIDR (IpAddr.V4 192 168 0 0, Span.mk 10 21) (16, Span.mk 22 24),
    Span.mk 10 24)

def c3Ast : Legacy.AST :=
  Legacy.AST.mk
    [(0,
      (Legacy.Rule.mk ("alert", Span.mk 0 5)
        (Legacy.Header.mk ("tcp", Span.mk 6 9) c3Source (Legacy.NetworkPort.Any, Span.mk 25 28)
          (Meerkat.NetworkDirection.SrcToDst, Span.mk 29 31)
          (Legacy.NetworkAddress.Any, Span.mk 32 35) (Legacy.NetworkPort.Any, Span.mk 36 39),
          Span.mk 6 39)
        [],
        Span.mk 0 39))]

/-- C3: hovering at column 12 — inside the `192.168.0.0/16` source CIDR —
returns nothing, because `hover_for_header` computes the CIDR hover and then
discards it, falling through to `None`.  The discarded value (computed by
`hover_for_address`) does contain the network and broadcast bounds, and the
CIDR arithmetic itself is correct: network `192.168.0.0`, broadcast
`192.168.255.255`. -/
theorem c3_hover_cidr_discarded :
    Legacy.get_hover c3Ast 0 12 [] = none ∧
    Legacy.hover_for_address c3Source 12 =
      some (Legacy.HoverContents.Markup ⟨"**192.168.0.0** - **192.168.255.255**"⟩,
        Span.mk 10 24) ∧
    (Legacy.IpNet.new (IpAddr.V4 192 168 0 0) 16).map
        (fun r => ((r.network).toStr, (r.broadcast).toStr)) =
      some ("192.168.0.0", "192.168.255.255") :=
  ⟨rfl, rfl, rfl⟩

/-- C4: a port field consisting of `:` alone is rejected by the port
grammar with a hard (recoverable) error and is never parsed as `any` or any
other port value: whenever the character after the `:` is not a digit, the
whole `NetworkPort` parser fails on that input.  On a full line the
unconsumed `:` then makes the whole rule fail. -/
theorem c4_port_colon_rejected :
    (∀ (pos : Nat) (rest : List Char),
      (∀ c, rest.head? = some c → c.isDigit = false) →
      Meerkat.NetworkPort.parserFn (PState.mk pos (':' :: rest)) = .fail) ∧
    Meerkat.parseLine "alert tcp any : -> any any" = .fail := by
  constructor
  · intro pos rest h
    show Meerkat.portPF ((':' :: rest).length + 1) (PState.mk pos (':' :: rest)) = .fail
    cases rest with
    | nil => rfl
    | cons c cs =>
      have hc : c.isDigit = false := h c rfl
      have hne : ¬(c = '0') := by
        intro hEq
        rw [hEq] at hc
        exact absurd hc (by decide)
      simp [List.length_cons, Meerkat.portPF, Parsec.padded, Parsec.skipWs,
        Parsec.skipWsAux, Parsec.isWs, Parsec.orElse, Parsec.just, Parsec.ignoreThen,
        Parsec.pmap, Parsec.andThen, Parsec.mapWithSpan, Parsec.tryMap, Parsec.mapUnwrap,
        Parsec.orNot, Parsec.thenIgnore, Parsec.oneOf, Parsec.noneOf, Parsec.manyAux,
        Parsec.many, Parsec.ident, Parsec.keywordP, Parsec.int10, Parsec.delimitedBy,
        Parsec.sepByTrailing, Parsec.sepByAux, Parsec.isIdentStart, Parsec.isIdentCont,
        Meerkat.portVariableP, Meerkat.portRangeP, Meerkat.portNumberP, Meerkat.portAnyP,
        Meerkat.numberP, hc, hne]
  · rfl

/-- C4 witness: the port parser rejects `:` when followed by ` -> any any`
(no digit on the right, none on the left). -/
theorem c4_port_colon_rejected_witness :
    Meerkat.NetworkPort.parserFn (PState.mk 14 (':' :: " -> any any".toList)) = .fail := by
  apply c4_port_colon_rejected.1
  intro c hc
  injection (show some ' ' = some c from hc) with h
  rw [← h]
  rfl

def c6MsgRecord : Legacy.KeywordRecord :=
  Legacy.KeywordRecord.mk "msg" "Message" "" "" "url"

/-- C6: false as stated — a non-`NoOption` keyword's completion item inserts
the bare keyword name (`msg`), not `msg: `. -/
theorem c6_counterexample :
    (Legacy.get_completion_for_option_keywords [("msg", Legacy.Keyword.Other c6MsgRecord)]
        []).map (fun i => i.insert_text) = [some "msg"] ∧
    (some "msg" : Option String) ≠ some ("msg" ++ ": ") :=
  ⟨rfl, by decide⟩

/-- C6 (amended): for every keyword dictionary, a `NoOption` keyword's item
inserts `name; ` (auto-terminated) and any other keyword's item inserts the
bare `name` (no `: `); every item is of KEYWORD kind. -/
theorem c6_keyword_insert_texts (kws : List (String × Legacy.Keyword)) :
    (Legacy.get_completion_for_option_keywords kws []).map (fun i => (i.insert_text, i.kind)) =
      kws.map (fun e =>
        match e.2 with
        | .NoOption r =>
          (some (r.name ++ "; "), some Legacy.CompletionItemKind.KEYWORD)
        | .Other r => (some r.name, some Legacy.CompletionItemKind.KEYWORD)) := by
  induction kws with
  | nil => rfl
  | cons e rest ih =>
    cases h : e.2 with
    | NoOption r =>
      simp [Legacy.get_completion_for_option_keywords, h] at ih ⊢
      exact ih
    | Other r =>
      simp [Legacy.get_completion_for_option_keywords, h] at ih ⊢
      exact ih

def c9OptA : Meerkat.RuleOption × Span :=
  (Meerkat.RuleOption.Buffer ("http.uri", Span.mk 1 9), Span.mk 1 9)

def c9OptB : Meerkat.RuleOption × Span :=
  (Meerkat.RuleOption.KeywordPair ("msg", Span.mk 11 14)
      [(Meerkat.OptionsVariable.Str ("hi", Span.mk 16 19), Span.mk 16 19)],
    Span.mk 11 20)

def c9Header : Meerkat.Header × Span :=
  (Meerkat.Header.mk none none none none none none, Span.mk 0 0)

def c9Rule1 : Meerkat.Rule := Meerkat.Rule.mk none c9Header (some [c9OptA, c9OptB])

def c9Rule2 : Meerkat.Rule := Meerkat.Rule.mk none c9Header (some [c9OptB, c9OptA])

/-- C9: false as stated — `Rule`'s `PartialEq` is derived in `rule/mod.rs`,
so two rules that differ only in the order of their (permuted) options are
not equal. -/
theorem c9_counterexample :
    List.Perm [c9OptA, c9OptB] [c9OptB, c9OptA] ∧ c9Rule1 ≠ c9Rule2 := by
  refine ⟨List.Perm.swap _ _ _, ?_⟩
  intro h
  have h2 := congrArg (fun r => (r.options.getD []).map (fun o => Meerkat.optionKeyword o.1)) h
  simp [c9Rule1, c9Rule2, c9OptA, c9OptB, Meerkat.optionKeyword] at h2

/-- C9 (amended): equality of the current `Rule` is fully structural — with
action and header fixed, two rules are equal exactly when their stored
options lists are equal as lists (order and spans included).  The set-based,
order-insensitive comparison exists only in the superseded flat `rule.rs`
revision. -/
theorem c9_rule_eq_structural (a : Option (Spanned Meerkat.Action))
    (h : Meerkat.Header × Span) (o o' : Option (List (Meerkat.RuleOption × Span))) :
    (Meerkat.Rule.mk a h o = Meerkat.Rule.mk a h o') ↔ o = o' := by
  simp

/-!
## Inversion lemmas for the combinators (shared proof infrastructure)
-/

theorem Parsec.pmap_ok {α β : Type} {p : Parsec α} {f : α → β} {st st' : PState} {w : β}
    (hp : Parsec.pmap p f st = .ok w st') :
    ∃ v, p st = .ok v st' ∧ w = f v := by
  unfold Parsec.pmap at hp
  split at hp
  · next a st1 hps =>
    injection hp with h1 h2
    subst h2
    exact ⟨a, hps, h1.symm⟩
  · cases hp
  · cases hp

theorem Parsec.mapWithSpan_ok {α β : Type} {p : Parsec α} {f : α → Span → β}
    {st st' : PState} {w : β}
    (hp : Parsec.mapWithSpan p f st = .ok w st') :
    ∃ v, p st = .ok v st' ∧ w = f v (Span.mk st.pos st'.pos) := by
  unfold Parsec.mapWithSpan at hp
  split at hp
  · next a st1 hps =>
    injection hp with h1 h2
    subst h2
    exact ⟨a, hps, h1.symm⟩
  · cases hp
  · cases hp

theorem Parsec.andThen_ok {α β : Type} {p : Parsec α} {q : Parsec β} {st st' : PState}
    {v : α × β} (hp : Parsec.andThen p q st = .ok v st') :
    ∃ st1, p st = .ok v.1 st1 ∧ q st1 = .ok v.2 st' := by
  unfold Parsec.andThen at hp
  split at hp
  · next a st1 hps =>
    split at hp
    · next b st2 hq =>
      injection hp with h1 h2
      subst h2
      subst h1
      exact ⟨st1, hps, hq⟩
    · cases hp
    · cases hp
  · cases hp
  · cases hp

theorem Parsec.thenIgnore_ok {α β : Type} {p : Parsec α} {q : Parsec β} {st st' : PState}
    {v : α} (hp : Parsec.thenIgnore p q st = .ok v st') :
    ∃ st1 b, p st = .ok v st1 ∧ q st1 = .ok b st' := by
  obtain ⟨vv, hv, hw⟩ := Parsec.pmap_ok hp
  obtain ⟨st1, h1, h2⟩ := Parsec.andThen_ok hv
  exact ⟨st1, vv.2, by rw [← hw] at h1; exact h1, h2⟩

theorem Parsec.padded_ok {α : Type} {p : Parsec α} {st st' : PState} {v : α}
    (hp : Parsec.padded p st = .ok v st') :
    ∃ st1, p (Parsec.skipWs st) = .ok v st1 := by
  unfold Parsec.padded at hp
  split at hp
  · next a st1 hps =>
    injection hp with h1 h2
    subst h1
    exact ⟨st1, hps⟩
  · cases hp
  · cases hp

/-- `one_of` never panics. -/
theorem Parsec.oneOf_ne_panicked (s : String) (st : PState) :
    Parsec.oneOf s st ≠ .panicked := by
  intro h
  unfold Parsec.oneOf at h
  split at h
  · cases h
  · split at h <;> cases h

/-- `repeated` over `one_of` can never fail (or panic): zero repetitions
succeed. -/
theorem Parsec.manyAux_oneOf_ok (s : String) (fuel : Nat) :
    ∀ (st : PState) (acc : List Char),
      ∃ vs st', Parsec.manyAux (Parsec.oneOf s) fuel st acc = .ok vs st' := by
  induction fuel with
  | zero => intro st acc; exact ⟨acc.reverse, st, rfl⟩
  | succ fuel ih =>
    intro st acc
    simp only [Parsec.manyAux]
    cases hone : Parsec.oneOf s st with
    | ok v st1 =>
      simp only [hone]
      exact ih st1 (v :: acc)
    | fail =>
      simp only [hone]
      exact ⟨acc.reverse, st, rfl⟩
    | panicked => exact absurd hone (Parsec.oneOf_ne_panicked s st)

/-- The direction parser always succeeds. -/
theorem Meerkat.direction_ok (st : PState) :
    ∃ v st', Meerkat.NetworkDirection.parserFn st = .ok v st' := by
  obtain ⟨vs, st', h⟩ := Parsec.manyAux_oneOf_ok "<->" (st.rest.length + 1) st []
  unfold Meerkat.NetworkDirection.parserFn Parsec.mapWithSpan Parsec.pmap Parsec.many
  rw [h]
  exact ⟨_, st', rfl⟩

/-- `or_not` of the (padded) direction parser always succeeds with `some`. -/
theorem Meerkat.dir_opt_some (st : PState) :
    ∃ v st', Parsec.padded (Parsec.orNot Meerkat.NetworkDirection.parserFn) st =
      .ok (some v) st' := by
  obtain ⟨v, st', h⟩ := Meerkat.direction_ok (Parsec.skipWs st)
  refine ⟨v, Parsec.skipWs st', ?_⟩
  unfold Parsec.padded Parsec.orNot
  rw [h]

/-- Whenever `Header::parser` succeeds, the produced header's `direction`
field is `Some`. -/
theorem Meerkat.header_direction_some {st st' : PState} {h : Meerkat.Header × Span}
    (hp : Meerkat.Header.parserFn st = .ok h st') : (h.1.direction).isSome = true := by
  unfold Meerkat.Header.parserFn at hp
  obtain ⟨v, hv, hw⟩ := Parsec.mapWithSpan_ok hp
  obtain ⟨⟨⟨proto, src⟩, dir⟩, dst⟩ := v
  obtain ⟨st1, h1, h2⟩ := Parsec.andThen_ok hv
  obtain ⟨st2, h3, h4⟩ := Parsec.andThen_ok h1
  obtain ⟨w, st3, hdir⟩ := Meerkat.dir_opt_some st2
  rw [h4] at hdir
  injection hdir with hval hst
  simp only [Prod.fst, Prod.snd] at hval
  rw [hw]
  simp [hval]

/-- C10: the `NetworkDirection` parser succeeds on empty input, yielding
`Unrecognized("")` with a zero-width span, and consequently every
successfully parsed rule has `direction = Some …` in its header, even when
the line contains no direction token. -/
theorem c10_direction_always_some :
    (∀ pos : Nat, Meerkat.NetworkDirection.parserFn (PState.mk pos []) =
      .ok (Meerkat.NetworkDirection.Unrecognized "", Span.mk pos pos) (PState.mk pos [])) ∧
    (∀ (s : String) (r : Meerkat.Rule × Span) (st : PState),
      Meerkat.parseLine s = .ok r st → (r.1.header.1.direction).isSome = true) := by
  constructor
  · intro pos; rfl
  · intro s r st hp
    unfold Meerkat.parseLine Meerkat.Rule.parserFn at hp
    obtain ⟨v, hv, hw⟩ := Parsec.mapWithSpan_ok hp
    obtain ⟨st1, b, h1, h2⟩ := Parsec.thenIgnore_ok hv
    obtain ⟨st2, h3, h4⟩ := Parsec.andThen_ok h1
    obtain ⟨st3, h5, h6⟩ := Parsec.andThen_ok h3
    obtain ⟨st4, h7⟩ := Parsec.padded_ok h6
    have hds := Meerkat.header_direction_some h7
    rw [hw]
    exact hds

/-- C10 witness: a line with no direction token parses, and its direction
field is `Some`. -/
theorem c10_direction_always_some_witness :
    ∃ r st, Meerkat.parseLine "alert" = .ok r st ∧ (r.1.header.1.direction).isSome = true := by
  cases hEq : Meerkat.parseLine "alert" with
  | ok r st => exact ⟨r, st, rfl, c10_direction_always_some.2 "alert" r st hEq⟩
  | fail => exact nomatch hEq
  | panicked => exact nomatch hEq

/-!
## Variable-collection traversal: specification-level leaf enumeration
-/

namespace Meerkat

mutual

/-- Modelled from the spec (§4.3, §8): the pre-order list of variable leaves
of an address tree — every leaf once per occurrence, groups in declaration
order, negation descending into its child. -/
def NetworkAddress.varLeaves : NetworkAddress → List (Spanned String)
  | .Any _ => []
  | .IPAddr _ => []
  | .CIDR _ _ => []
  | .IPGroup group => NetworkAddress.varLeavesList group
  | .NegIP (ip, _) => ip.varLeaves
  | .IPVariable var => [var]

def NetworkAddress.varLeavesList : List (NetworkAddress × Span) → List (Spanned String)
  | [] => []
  | (ip, _) :: rest => ip.varLeaves ++ NetworkAddress.varLeavesList rest

end

mutual

/-- Modelled from the spec (§4.3, §8): the pre-order list of variable leaves
of a port tree. -/
def NetworkPort.varLeaves : NetworkPort → List (Spanned String)
  | .Any _ => []
  | .Port _ => []
  | .PortRange _ _ => []
  | .PortOpenRange _ _ => []
  | .PortGroup group => NetworkPort.varLeavesList group
  | .NegPort (port, _) => port.varLeaves
  | .PortVar var => [var]

def NetworkPort.varLeavesList : List (NetworkPort × Span) → List (Spanned String)
  | [] => []
  | (port, _) :: rest => port.varLeaves ++ NetworkPort.varLeavesList rest

end

mutual

/-- The accumulator of the traversal is purely prepended output. -/
theorem NetworkAddress.addrFindVars_acc :
    ∀ (a : NetworkAddress) (name : Option String) (acc : List (Spanned String)),
      a.find_variables_with_array name acc = acc ++ a.find_variables_with_array name []
  | .Any _, _, acc => by simp [NetworkAddress.find_variables_with_array]
  | .IPAddr _, _, acc => by simp [NetworkAddress.find_variables_with_array]
  | .CIDR _ _, _, acc => by simp [NetworkAddress.find_variables_with_array]
  | .IPGroup group, name, acc => by
    simp only [NetworkAddress.find_variables_with_array]
    exact NetworkAddress.addrFindVarsList_acc group name acc
  | .NegIP (ip, _), name, acc => by
    simp only [NetworkAddress.find_variables_with_array]
    exact NetworkAddress.addrFindVars_acc ip name acc
  | .IPVariable var, name, acc => by
    cases name with
    | none => simp [NetworkAddress.find_variables_with_array]
    | some n =>
      by_cases h : n = var.1 <;> simp [NetworkAddress.find_variables_with_array, h]

theorem NetworkAddress.addrFindVarsList_acc :
    ∀ (l : List (NetworkAddress × Span)) (name : Option String) (acc : List (Spanned String)),
      NetworkAddress.findVarsList l name acc = acc ++ NetworkAddress.findVarsList l name []
  | [], _, acc => by simp [NetworkAddress.findVarsList]
  | (ip, sp) :: rest, name, acc => by
    simp only [NetworkAddress.findVarsList]
    rw [NetworkAddress.addrFindVarsList_acc rest name (ip.find_variables_with_array name acc),
      NetworkAddress.addrFindVarsList_acc rest name (ip.find_variables_with_array name []),
      NetworkAddress.addrFindVars_acc ip name acc, List.append_assoc]

end

mutual

/-- Unfiltered collection enumerates exactly the variable leaves, in order
(so every leaf is visited exactly once, at any nesting depth). -/
theorem NetworkAddress.addrFindVars_none_eq_varLeaves :
    ∀ a : NetworkAddress, a.find_variables_with_array none [] = a.varLeaves
  | .Any _ => rfl
  | .IPAddr _ => rfl
  | .CIDR _ _ => rfl
  | .IPGroup group => by
    simp only [NetworkAddress.find_variables_with_array, NetworkAddress.varLeaves]
    exact NetworkAddress.addrFindVarsList_none_eq group
  | .NegIP (ip, _) => by
    simp only [NetworkAddress.find_variables_with_array, NetworkAddress.varLeaves]
    exact NetworkAddress.addrFindVars_none_eq_varLeaves ip
  | .IPVariable var => rfl

theorem NetworkAddress.addrFindVarsList_none_eq :
    ∀ l : List (NetworkAddress × Span),
      NetworkAddress.findVarsList l none [] = NetworkAddress.varLeavesList l
  | [] => rfl
  | (ip, sp) :: rest => by
    simp only [NetworkAddress.findVarsList, NetworkAddress.varLeavesList]
    rw [NetworkAddress.addrFindVarsList_acc rest none (ip.find_variables_with_array none []),
      NetworkAddress.addrFindVars_none_eq_varLeaves ip,
      NetworkAddress.addrFindVarsList_none_eq rest]

end

mutual

/-- Name-filtered collection is the unfiltered enumeration restricted to
leaves of that name. -/
theorem NetworkAddress.addrFindVars_some_eq_filter :
    ∀ (a : NetworkAddress) (n : String),
      a.find_variables_with_array (some n) [] = a.varLeaves.filter (fun v => v.1 == n)
  | .Any _, _ => rfl
  | .IPAddr _, _ => rfl
  | .CIDR _ _, _ => rfl
  | .IPGroup group, n => by
    simp only [NetworkAddress.find_variables_with_array, NetworkAddress.varLeaves]
    exact NetworkAddress.addrFindVarsList_some_eq group n
  | .NegIP (ip, _), n => by
    simp only [NetworkAddress.find_variables_with_array, NetworkAddress.varLeaves]
    exact NetworkAddress.addrFindVars_some_eq_filter ip n
  | .IPVariable var, n => by
    by_cases h : n = var.1
    · simp [NetworkAddress.find_variables_with_array, NetworkAddress.varLeaves, h,
        List.filter]
    · have hb : (var.1 == n) = false := beq_eq_false_iff_ne.mpr (Ne.symm h)
      simp [NetworkAddress.find_variables_with_array, NetworkAddress.varLeaves, h,
        List.filter, hb]

theorem NetworkAddress.addrFindVarsList_some_eq :
    ∀ (l : List (NetworkAddress × Span)) (n : String),
      NetworkAddress.findVarsList l (some n) [] =
        (NetworkAddress.varLeavesList l).filter (fun v => v.1 == n)
  | [], _ => rfl
  | (ip, sp) :: rest, n => by
    simp only [NetworkAddress.findVarsList, NetworkAddress.varLeavesList, List.filter_append]
    rw [NetworkAddress.addrFindVarsList_acc rest (some n) (ip.find_variables_with_array (some n) []),
      NetworkAddress.addrFindVars_some_eq_filter ip n,
      NetworkAddress.addrFindVarsList_some_eq rest n]

end

end Meerkat

namespace Meerkat

mutual

/-- Port-side accumulator lemma. -/
theorem NetworkPort.portFindVars_acc :
    ∀ (p : NetworkPort) (name : Option String) (acc : List (Spanned String)),
      p.find_variables_with_array name acc = acc ++ p.find_variables_with_array name []
  | .Any _, _, acc => by simp [NetworkPort.find_variables_with_array]
  | .Port _, _, acc => by simp [NetworkPort.find_variables_with_array]
  | .PortRange _ _, _, acc => by simp [NetworkPort.find_variables_with_array]
  | .PortOpenRange _ _, _, acc => by simp [NetworkPort.find_variables_with_array]
  | .PortGroup group, name, acc => by
    simp only [NetworkPort.find_variables_with_array]
    exact NetworkPort.portFindVarsList_acc group name acc
  | .NegPort (port, _), name, acc => by
    simp only [NetworkPort.find_variables_with_array]
    exact NetworkPort.portFindVars_acc port name acc
  | .PortVar var, name, acc => by
    cases name with
    | none => simp [NetworkPort.find_variables_with_array]
    | some n =>
      by_cases h : n = var.1 <;> simp [NetworkPort.find_variables_with_array, h]

theorem NetworkPort.portFindVarsList_acc :
    ∀ (l : List (NetworkPort × Span)) (name : Option String) (acc : List (Spanned String)),
      NetworkPort.findVarsList l name acc = acc ++ NetworkPort.findVarsList l name []
  | [], _, acc => by simp [NetworkPort.findVarsList]
  | (port, sp) :: rest, name, acc => by
    simp only [NetworkPort.findVarsList]
    rw [NetworkPort.portFindVarsList_acc rest name (port.find_variables_with_array name acc),
      NetworkPort.portFindVarsList_acc rest name (port.find_variables_with_array name []),
      NetworkPort.portFindVars_acc port name acc, List.append_assoc]

end

mutual

/-- Port-side unfiltered collection enumerates exactly the variable leaves. -/
theorem NetworkPort.portFindVars_none_eq_varLeaves :
    ∀ p : NetworkPort, p.find_variables_with_array none [] = p.varLeaves
  | .Any _ => rfl
  | .Port _ => rfl
  | .PortRange _ _ => rfl
  | .PortOpenRange _ _ => rfl
  | .PortGroup group => by
    simp only [NetworkPort.find_variables_with_array, NetworkPort.varLeaves]
    exact NetworkPort.portFindVarsList_none_eq group
  | .NegPort (port, _) => by
    simp only [NetworkPort.find_variables_with_array, NetworkPort.varLeaves]
    exact NetworkPort.portFindVars_none_eq_varLeaves port
  | .PortVar var => rfl

theorem NetworkPort.portFindVarsList_none_eq :
    ∀ l : List (NetworkPort × Span),
      NetworkPort.findVarsList l none [] = NetworkPort.varLeavesList l
  | [] => rfl
  | (port, sp) :: rest => by
    simp only [NetworkPort.findVarsList, NetworkPort.varLeavesList]
    rw [NetworkPort.portFindVarsList_acc rest none (port.find_variables_with_array none []),
      NetworkPort.portFindVars_none_eq_varLeaves port,
      NetworkPort.portFindVarsList_none_eq rest]

end

mutual

/-- Port-side filtered collection is the restriction of the enumeration. -/
theorem NetworkPort.portFindVars_some_eq_filter :
    ∀ (p : NetworkPort) (n : String),
      p.find_variables_with_array (some n) [] = p.varLeaves.filter (fun v => v.1 == n)
  | .Any _, _ => rfl
  | .Port _, _ => rfl
  | .PortRange _ _, _ => rfl
  | .PortOpenRange _ _, _ => rfl
  | .PortGroup group, n => by
    simp only [NetworkPort.find_variables_with_array, NetworkPort.varLeaves]
    exact NetworkPort.portFindVarsList_some_eq group n
  | .NegPort (port, _), n => by
    simp only [NetworkPort.find_variables_with_array, NetworkPort.varLeaves]
    exact NetworkPort.portFindVars_some_eq_filter port n
  | .PortVar var, n => by
    by_cases h : n = var.1
    · simp [NetworkPort.find_variables_with_array, NetworkPort.varLeaves, h, List.filter]
    · have hb : (var.1 == n) = false := beq_eq_false_iff_ne.mpr (Ne.symm h)
      simp [NetworkPort.find_variables_with_array, NetworkPort.varLeaves, h, List.filter, hb]

theorem NetworkPort.portFindVarsList_some_eq :
    ∀ (l : List (NetworkPort × Span)) (n : String),
      NetworkPort.findVarsList l (some n) [] =
        (NetworkPort.varLeavesList l).filter (fun v => v.1 == n)
  | [], _ => rfl
  | (port, sp) :: rest, n => by
    simp only [NetworkPort.findVarsList, NetworkPort.varLeavesList, List.filter_append]
    rw [NetworkPort.portFindVarsList_acc rest (some n) (port.find_variables_with_array (some n) []),
      NetworkPort.portFindVars_some_eq_filter port n,
      NetworkPort.portFindVarsList_some_eq rest n]

end

end Meerkat

/-- The spec's example `[$A,[$B,!$C]]` (spans as the parser would assign). -/
def c8Example : Meerkat.NetworkAddress :=
  Meerkat.NetworkAddress.IPGroup
    [(Meerkat.NetworkAddress.IPVariable ("A", Span.mk 1 3), Span.mk 1 3),
     (Meerkat.NetworkAddress.IPGroup
        [(Meerkat.NetworkAddress.IPVariable ("B", Span.mk 5 7), Span.mk 5 7),
         (Meerkat.NetworkAddress.NegIP
            (Meerkat.NetworkAddress.IPVariable ("C", Span.mk 9 11), Span.mk 9 11),
          Span.mk 8 11)],
      Span.mk 4 12)]

/-- C8: the variable-collecting traversal, with filter `None`, returns
exactly the pre-order list of variable leaves (every leaf exactly once, at
any nesting depth), and with filter `Some name` it returns that list
restricted to leaves of that name — for both address and port trees.  On the
spec's example `[$A,[$B,!$C]]` it yields `A`, `B`, `C`, each once. -/
theorem c8_find_variables_traversal :
    (∀ (a : Meerkat.NetworkAddress) (n : String),
      a.find_variables_with_array none [] = a.varLeaves ∧
      a.find_variables_with_array (some n) [] = a.varLeaves.filter (fun v => v.1 == n)) ∧
    (∀ (p : Meerkat.NetworkPort) (n : String),
      p.find_variables_with_array none [] = p.varLeaves ∧
      p.find_variables_with_array (some n) [] = p.varLeaves.filter (fun v => v.1 == n)) ∧
    (c8Example.find_variables_with_array none []).map Prod.fst = ["A", "B", "C"] :=
  ⟨fun a n => ⟨Meerkat.NetworkAddress.addrFindVars_none_eq_varLeaves a,
      Meerkat.NetworkAddress.addrFindVars_some_eq_filter a n⟩,
    fun p n => ⟨Meerkat.NetworkPort.portFindVars_none_eq_varLeaves p,
      Meerkat.NetworkPort.portFindVars_some_eq_filter p n⟩,
    rfl⟩

/-!
## Reference provider: equivalences and the include_self behaviour
-/

namespace Legacy

mutual

/-- `reference.rs`'s bespoke collector agrees with `rule.rs`'s
name-filtered `find_variables_with_array`. -/
theorem gvfa_eq_findVars :
    ∀ (a : NetworkAddress) (v : String) (acc : List (Spanned String)),
      get_variable_from_address a v acc = a.find_variables_with_array (some v) acc
  | .Any, _, acc => rfl
  | .IPAddr _, _, acc => rfl
  | .CIDR _ _, _, acc => rfl
  | .IPGroup group, v, acc => by
    simp only [get_variable_from_address, NetworkAddress.find_variables_with_array]
    exact gvfaGroup_eq group v acc
  | .NegIP (ip, _), v, acc => by
    simp only [get_variable_from_address, NetworkAddress.find_variables_with_array]
    exact gvfa_eq_findVars ip v acc
  | .IPVariable var, v, acc => rfl

theorem gvfaGroup_eq :
    ∀ (l : List (NetworkAddress × Span)) (v : String) (acc : List (Spanned String)),
      gvfaGroup l v acc = NetworkAddress.findVarsList l (some v) acc
  | [], _, acc => rfl
  | (ip, sp) :: rest, v, acc => by
    simp only [gvfaGroup, NetworkAddress.findVarsList]
    rw [gvfa_eq_findVars ip v acc, gvfaGroup_eq rest v]

end

/-- Cross-rule collection in `reference.rs` equals folding `rule.rs`'s
`Header::find_address_variables` over the document. -/
theorem get_variable_with_name_eq (ast : AST) (v : String) :
    get_variable_with_name ast v =
      ast.rules.foldl (fun acc e => e.2.1.header.1.find_address_variables (some v) acc) [] := by
  unfold get_variable_with_name Header.find_address_variables
  congr 1
  funext acc e
  rw [gvfa_eq_findVars, gvfa_eq_findVars]

end Legacy

/-- C7 (amended): once the variable at the offset resolves, `include_self =
true` returns every collected occurrence (equivalently, the fold of
`rule.rs`'s traversal over all rules), and `include_self = false` returns
exactly the occurrences whose span does **not** contain the originating
offset — which excludes every occurrence covering that column on any line,
not only the one the request started from. -/
theorem c7_reference_query (ast : Legacy.AST) (off : Nat) (v : String)
    (h : Legacy.get_variable_name ast off = some v) :
    Legacy.get_reference ast off true = Legacy.get_variable_with_name ast v ∧
    Legacy.get_variable_with_name ast v =
      ast.rules.foldl (fun acc e => e.2.1.header.1.find_address_variables (some v) acc) [] ∧
    ∀ r, r ∈ Legacy.get_reference ast off false ↔
      r ∈ Legacy.get_variable_with_name ast v ∧ r.2.containsOff off = false := by
  refine ⟨?_, Legacy.get_variable_with_name_eq ast v, ?_⟩
  · simp [Legacy.get_reference, h]
  · intro r
    simp [Legacy.get_reference, h, List.mem_filter]

/-- Two rules, on lines 0 and 1, both referencing `$HOME_NET` (at columns
10–19 and 11–20 respectively), as in the spec's rename scenario. -/
def c7Ast : Legacy.AST :=
  Legacy.AST.mk
    [(0,
      (Legacy.Rule.mk ("alert", Span.mk 0 5)
        (Legacy.Header.mk ("tcp", Span.mk 6 9)
          (Legacy.NetworkAddress.IPVariable ("HOME_NET", Span.mk 10 19), Span.mk 10 19)
          (Legacy.NetworkPort.Any, Span.mk 20 23)
          (Meerkat.NetworkDirection.SrcToDst, Span.mk 24 26)
          (Legacy.NetworkAddress.Any, Span.mk 27 30) (Legacy.NetworkPort.Any, Span.mk 31 34),
          Span.mk 6 34)
        [],
        Span.mk 0 40)),
     (1,
      (Legacy.Rule.mk ("alert", Span.mk 0 5)
        (Legacy.Header.mk ("udp", Span.mk 6 9)
          (Legacy.NetworkAddress.IPVariable ("HOME_NET", Span.mk 11 20), Span.mk 11 20)
          (Legacy.NetworkPort.Any, Span.mk 21 24)
          (Meerkat.NetworkDirection.SrcToDst, Span.mk 25 27)
          (Legacy.NetworkAddress.Any, Span.mk 28 31) (Legacy.NetworkPort.Any, Span.mk 32 35),
          Span.mk 6 35)
        [],
        Span.mk 0 40))]

/-- C7: false as stated — at offset 12 (inside `$HOME_NET` of line 0) with
`include_self = false`, the query filters by span-contains-offset, which
also drops line 1's occurrence at columns 11–20; it returns the empty list
rather than exactly the other occurrence. With `include_self = true` both
occurrences are returned. -/
theorem c7_counterexample :
    Legacy.get_reference c7Ast 12 false = [] ∧
    Legacy.get_reference c7Ast 12 true =
      [("HOME_NET", Span.mk 10 19), ("HOME_NET", Span.mk 11 20)] ∧
    Legacy.get_reference c7Ast 12 false ≠ [("HOME_NET", Span.mk 11 20)] := by
  refine ⟨rfl, rfl, ?_⟩
  intro h
  rw [show Legacy.get_reference c7Ast 12 false = [] from rfl] at h
  exact absurd h (by decide)

/-- C7 witness: the amended theorem applied to the two-rule scenario. -/
theorem c7_reference_query_witness :
    Legacy.get_variable_name c7Ast 12 = some "HOME_NET" ∧
    Legacy.get_reference c7Ast 12 true = Legacy.get_variable_with_name c7Ast "HOME_NET" :=
  ⟨rfl, (c7_reference_query c7Ast 12 "HOME_NET" rfl).1⟩

/-!
## Completion provider: variable-inventory characterization
-/

namespace Legacy

theorem mem_hashInsert (s : List String) (x y : String) :
    y ∈ hashInsert s x ↔ y ∈ s ∨ y = x := by
  unfold hashInsert
  by_cases h : x ∈ s
  · simp only [if_pos h]
    constructor
    · exact Or.inl
    · rintro (hy | rfl)
      · exact hy
      · exact h
  · simp [if_neg h]

mutual

/-- Legacy accumulator lemma for the address traversal. -/
theorem NetworkAddress.flatAddrFindVars_acc :
    ∀ (a : NetworkAddress) (name : Option String) (acc : List (Spanned String)),
      a.find_variables_with_array name acc = acc ++ a.find_variables_with_array name []
  | .Any, _, acc => by simp [NetworkAddress.find_variables_with_array]
  | .IPAddr _, _, acc => by simp [NetworkAddress.find_variables_with_array]
  | .CIDR _ _, _, acc => by simp [NetworkAddress.find_variables_with_array]
  | .IPGroup group, name, acc => by
    simp only [NetworkAddress.find_variables_with_array]
    exact NetworkAddress.flatAddrFindVarsList_acc group name acc
  | .NegIP (ip, _), name, acc => by
    simp only [NetworkAddress.find_variables_with_array]
    exact NetworkAddress.flatAddrFindVars_acc ip name acc
  | .IPVariable var, name, acc => by
    cases name with
    | none => simp [NetworkAddress.find_variables_with_array]
    | some n =>
      by_cases h : n = var.1 <;> simp [NetworkAddress.find_variables_with_array, h]

theorem NetworkAddress.flatAddrFindVarsList_acc :
    ∀ (l : List (NetworkAddress × Span)) (name : Option String) (acc : List (Spanned String)),
      NetworkAddress.findVarsList l name acc = acc ++ NetworkAddress.findVarsList l name []
  | [], _, acc => by simp [NetworkAddress.findVarsList]
  | (ip, sp) :: rest, name, acc => by
    simp only [NetworkAddress.findVarsList]
    rw [NetworkAddress.flatAddrFindVarsList_acc rest name (ip.find_variables_with_array name acc),
      NetworkAddress.flatAddrFindVarsList_acc rest name (ip.find_variables_with_array name []),
      NetworkAddress.flatAddrFindVars_acc ip name acc, List.append_assoc]

end

mutual

/-- Legacy accumulator lemma for the port traversal. -/
theorem NetworkPort.flatPortFindVars_acc :
    ∀ (p : NetworkPort) (name : Option String) (acc : List (Spanned String)),
      p.find_variables_with_array name acc = acc ++ p.find_variables_with_array name []
  | .Any, _, acc => by simp [NetworkPort.find_variables_with_array]
  | .Port _, _, acc => by simp [NetworkPort.find_variables_with_array]
  | .PortRange _ _, _, acc => by simp [NetworkPort.find_variables_with_array]
  | .PortOpenRange _ _, _, acc => by simp [NetworkPort.find_variables_with_array]
  | .PortGroup group, name, acc => by
    simp only [NetworkPort.find_variables_with_array]
    exact NetworkPort.flatPortFindVarsList_acc group name acc
  | .NegPort (port, _), name, acc => by
    simp only [NetworkPort.find_variables_with_array]
    exact NetworkPort.flatPortFindVars_acc port name acc
  | .PortVar var, name, acc => by
    cases name with
    | none => simp [NetworkPort.find_variables_with_array]
    | some n =>
      by_cases h : n = var.1 <;> simp [NetworkPort.find_variables_with_array, h]

theorem NetworkPort.flatPortFindVarsList_acc :
    ∀ (l : List (NetworkPort × Span)) (name : Option String) (acc : List (Spanned String)),
      NetworkPort.findVarsList l name acc = acc ++ NetworkPort.findVarsList l name []
  | [], _, acc => by simp [NetworkPort.findVarsList]
  | (port, sp) :: rest, name, acc => by
    simp only [NetworkPort.findVarsList]
    rw [NetworkPort.flatPortFindVarsList_acc rest name (port.find_variables_with_array name acc),
      NetworkPort.flatPortFindVarsList_acc rest name (port.find_variables_with_array name []),
      NetworkPort.flatPortFindVars_acc port name acc, List.append_assoc]

end

mutual

/-- A name is in the completion search's set exactly when it was already
there or occurs as a variable leaf (per `rule.rs`'s traversal). -/
theorem mem_search_addr :
    ∀ (a : NetworkAddress) (s : List String) (y : String),
      y ∈ search_for_address_variables a s ↔
        y ∈ s ∨ ∃ sp, (y, sp) ∈ a.find_variables_with_array none []
  | .Any, s, y => by
    simp [search_for_address_variables, NetworkAddress.find_variables_with_array]
  | .IPAddr _, s, y => by
    simp [search_for_address_variables, NetworkAddress.find_variables_with_array]
  | .CIDR _ _, s, y => by
    simp [search_for_address_variables, NetworkAddress.find_variables_with_array]
  | .IPGroup group, s, y => by
    simp only [search_for_address_variables, NetworkAddress.find_variables_with_array]
    exact mem_search_addr_list group s y
  | .NegIP (ip, _), s, y => by
    simp only [search_for_address_variables, NetworkAddress.find_variables_with_array]
    exact mem_search_addr ip s y
  | .IPVariable var, s, y => by
    rcases var with ⟨vn, spv⟩
    simp [search_for_address_variables, NetworkAddress.find_variables_with_array,
      mem_hashInsert]

theorem mem_search_addr_list :
    ∀ (l : List (NetworkAddress × Span)) (s : List String) (y : String),
      y ∈ sfavGroup l s ↔ y ∈ s ∨ ∃ sp, (y, sp) ∈ NetworkAddress.findVarsList l none []
  | [], s, y => by simp [sfavGroup, NetworkAddress.findVarsList]
  | (ip, sp0) :: rest, s, y => by
    simp only [sfavGroup, NetworkAddress.findVarsList]
    rw [mem_search_addr_list rest (search_for_address_variables ip s) y,
      mem_search_addr ip s y,
      NetworkAddress.flatAddrFindVarsList_acc rest none (ip.find_variables_with_array none [])]
    simp only [List.mem_append]
    constructor
    · rintro ((hy | ⟨sp, hsp⟩) | ⟨sp, hsp⟩)
      · exact Or.inl hy
      · exact Or.inr ⟨sp, Or.inl hsp⟩
      · exact Or.inr ⟨sp, Or.inr hsp⟩
    · rintro (hy | ⟨sp, hsp | hsp⟩)
      · exact Or.inl (Or.inl hy)
      · exact Or.inl (Or.inr ⟨sp, hsp⟩)
      · exact Or.inr ⟨sp, hsp⟩

end

mutual

/-- Port-side counterpart of `mem_search_addr`. -/
theorem mem_search_port :
    ∀ (p : NetworkPort) (s : List String) (y : String),
      y ∈ search_for_port_variables p s ↔
        y ∈ s ∨ ∃ sp, (y, sp) ∈ p.find_variables_with_array none []
  | .Any, s, y => by
    simp [search_for_port_variables, NetworkPort.find_variables_with_array]
  | .Port _, s, y => by
    simp [search_for_port_variables, NetworkPort.find_variables_with_array]
  | .PortRange _ _, s, y => by
    simp [search_for_port_variables, NetworkPort.find_variables_with_array]
  | .PortOpenRange _ _, s, y => by
    simp [search_for_port_variables, NetworkPort.find_variables_with_array]
  | .PortGroup group, s, y => by
    simp only [search_for_port_variables, NetworkPort.find_variables_with_array]
    exact mem_search_port_list group s y
  | .NegPort (port, _), s, y => by
    simp only [search_for_port_variables, NetworkPort.find_variables_with_array]
    exact mem_search_port port s y
  | .PortVar var, s, y => by
    rcases var with ⟨vn, spv⟩
    simp [search_for_port_variables, NetworkPort.find_variables_with_array, mem_hashInsert]

theorem mem_search_port_list :
    ∀ (l : List (NetworkPort × Span)) (s : List String) (y : String),
      y ∈ sfpvGroup l s ↔ y ∈ s ∨ ∃ sp, (y, sp) ∈ NetworkPort.findVarsList l none []
  | [], s, y => by simp [sfpvGroup, NetworkPort.findVarsList]
  | (port, sp0) :: rest, s, y => by
    simp only [sfpvGroup, NetworkPort.findVarsList]
    rw [mem_search_port_list rest (search_for_port_variables port s) y,
      mem_search_port port s y,
      NetworkPort.flatPortFindVarsList_acc rest none (port.find_variables_with_array none [])]
    simp only [List.mem_append]
    constructor
    · rintro ((hy | ⟨sp, hsp⟩) | ⟨sp, hsp⟩)
      · exact Or.inl hy
      · exact Or.inr ⟨sp, Or.inl hsp⟩
      · exact Or.inr ⟨sp, Or.inr hsp⟩
    · rintro (hy | ⟨sp, hsp | hsp⟩)
      · exact Or.inl (Or.inl hy)
      · exact Or.inl (Or.inr ⟨sp, hsp⟩)
      · exact Or.inr ⟨sp, hsp⟩

end

/-- A name occurs in a header's collected address variables exactly when it
is a leaf of the source or of the destination address. -/
theorem mem_header_addr (hh : Header) (y : String) :
    (∃ sp, (y, sp) ∈ hh.find_address_variables none []) ↔
      (∃ sp, (y, sp) ∈ hh.source.1.find_variables_with_array none []) ∨
      (∃ sp, (y, sp) ∈ hh.destination.1.find_variables_with_array none []) := by
  unfold Header.find_address_variables
  rw [NetworkAddress.flatAddrFindVars_acc]
  simp [List.mem_append, exists_or]

/-- Port-side counterpart of `mem_header_addr`. -/
theorem mem_header_port (hh : Header) (y : String) :
    (∃ sp, (y, sp) ∈ hh.find_port_variables none []) ↔
      (∃ sp, (y, sp) ∈ hh.source_port.1.find_variables_with_array none []) ∨
      (∃ sp, (y, sp) ∈ hh.destination_port.1.find_variables_with_array none []) := by
  unfold Header.find_port_variables
  rw [NetworkPort.flatPortFindVars_acc]
  simp [List.mem_append, exists_or]

/-- The whole-document variable inventory contains exactly the names that
occur as variable leaves of some rule's header (address side and port side),
per `rule.rs`'s `find_address_variables`/`find_port_variables`. -/
theorem mem_get_variables_from_ast_list :
    ∀ (rules : List (Nat × (Rule × Span))) (a0 p0 : List String) (y : String),
      (y ∈ (get_variables_from_ast_list rules a0 p0).1 ↔
        y ∈ a0 ∨ ∃ e ∈ rules, ∃ sp, (y, sp) ∈ e.2.1.header.1.find_address_variables none []) ∧
      (y ∈ (get_variables_from_ast_list rules a0 p0).2 ↔
        y ∈ p0 ∨ ∃ e ∈ rules, ∃ sp, (y, sp) ∈ e.2.1.header.1.find_port_variables none []) := by
  intro rules
  induction rules with
  | nil => intro a0 p0 y; simp [get_variables_from_ast_list]
  | cons e rest ih =>
    intro a0 p0 y
    simp only [get_variables_from_ast_list]
    constructor
    · rw [(ih _ _ y).1, mem_search_addr, mem_search_addr]
      simp only [List.mem_cons, or_and_right, exists_or, exists_eq_left]
      rw [mem_header_addr e.2.1.header.1 y]
      tauto
    · rw [(ih _ _ y).2, mem_search_port, mem_search_port]
      simp only [List.mem_cons, or_and_right, exists_or, exists_eq_left]
      rw [mem_header_port e.2.1.header.1 y]
      tauto

end Legacy

def c5Kws : List (String × Legacy.Keyword) :=
  [("msg", Legacy.Keyword.Other (Legacy.KeywordRecord.mk "msg" "Message" "" "" "url"))]

/-- C5: false as stated — with the character before the cursor being `x`
(neither `$`, `(` nor `;`), the completion query still returns the keyword
suggestions instead of returning no completions: the code has no `(`/`;`
check at all. -/
theorem c5_counterexample :
    ['x', 'x'].get? 1 = some 'x' ∧
    Legacy.get_completion ['x', 'x'] (Legacy.AST.mk []) 2 ([], []) c5Kws =
      some [Legacy.CompletionItem.mk "msg" (some "msg")
        (some Legacy.CompletionItemKind.KEYWORD) (some "Message")] ∧
    Legacy.get_completion ['x', 'x'] (Legacy.AST.mk []) 2 ([], []) c5Kws ≠ some [] := by
  refine ⟨rfl, rfl, ?_⟩
  intro h
  rw [show Legacy.get_completion ['x', 'x'] (Legacy.AST.mk []) 2 ([], []) c5Kws =
    some [Legacy.CompletionItem.mk "msg" (some "msg")
      (some Legacy.CompletionItemKind.KEYWORD) (some "Message")] from rfl] at h
  exact absurd h (by decide)

/-- C5 (amended): when the character immediately before the cursor is `$`,
the completion query returns exactly one VARIABLE item per document
variable name — the names are exactly those occurring as variable leaves of
some rule's header (address side or port side, per `rule.rs`'s traversals),
inserted without a leading `$` — and no keyword items.  When that character
is anything other than `$` (not merely `(` or `;`), it returns the keyword
suggestions. -/
theorem c5_completion_contexts (line : List Char) (ast : Legacy.AST) (offset : Nat)
    (vars : List String × List String) (kws : List (String × Legacy.Keyword)) (c : Char)
    (hoff : 1 ≤ offset) (hc : line.get? (offset - 1) = some c) :
    (c = '$' →
      ∃ items, Legacy.get_completion line ast offset vars kws = some items ∧
        (∀ i ∈ items, i.kind = some Legacy.CompletionItemKind.VARIABLE ∧
          i.insert_text = some i.label) ∧
        (∀ name : String, (∃ i ∈ items, i.label = name) ↔
          ∃ e ∈ ast.rules, ∃ sp,
            (name, sp) ∈ e.2.1.header.1.find_address_variables none [] ∨
            (name, sp) ∈ e.2.1.header.1.find_port_variables none [])) ∧
    (¬c = '$' →
      Legacy.get_completion line ast offset vars kws =
        some (Legacy.get_completion_for_option_keywords kws [])) := by
  have hrun : Legacy.get_completion line ast offset vars kws =
      if c = '$' then
        some (Legacy.get_completion_for_port (Legacy.get_variables_from_ast ast [] []).2
          (Legacy.get_completion_for_address (Legacy.get_variables_from_ast ast [] []).1 []))
      else some (Legacy.get_completion_for_option_keywords kws []) := by
    unfold Legacy.get_completion
    rw [hc]
    rfl
  constructor
  · intro hcd
    rw [hcd] at hrun
    simp only [if_pos rfl] at hrun
    refine ⟨_, hrun, ?_, ?_⟩
    · intro i hi
      simp only [Legacy.get_completion_for_port, Legacy.get_completion_for_address,
        List.nil_append, List.mem_append, List.mem_map] at hi
      rcases hi with ⟨var, hvar, rfl⟩ | ⟨var, hvar, rfl⟩ <;> exact ⟨rfl, rfl⟩
    · intro name
      have hmem := Legacy.mem_get_variables_from_ast_list ast.rules [] [] name
      constructor
      · rintro ⟨i, hi, rfl⟩
        simp only [Legacy.get_completion_for_port, Legacy.get_completion_for_address,
          List.nil_append, List.mem_append, List.mem_map] at hi
        rcases hi with ⟨var, hvar, rfl⟩ | ⟨var, hvar, rfl⟩
        · have := (hmem.1.mp hvar)
          rcases this with h | ⟨e, he, sp, hsp⟩
          · cases h
          · exact ⟨e, he, sp, Or.inl hsp⟩
        · have := (hmem.2.mp hvar)
          rcases this with h | ⟨e, he, sp, hsp⟩
          · cases h
          · exact ⟨e, he, sp, Or.inr hsp⟩
      · rintro ⟨e, he, sp, hsp | hsp⟩
        · have hv : name ∈ (Legacy.get_variables_from_ast_list ast.rules [] []).1 :=
            hmem.1.mpr (Or.inr ⟨e, he, sp, hsp⟩)
          refine ⟨Legacy.CompletionItem.mk name (some name)
            (some Legacy.CompletionItemKind.VARIABLE) (some name), ?_, rfl⟩
          simp only [Legacy.get_completion_for_port, Legacy.get_completion_for_address,
            List.nil_append, List.mem_append, List.mem_map]
          exact Or.inl ⟨name, hv, rfl⟩
        · have hv : name ∈ (Legacy.get_variables_from_ast_list ast.rules [] []).2 :=
            hmem.2.mpr (Or.inr ⟨e, he, sp, hsp⟩)
          refine ⟨Legacy.CompletionItem.mk name (some name)
            (some Legacy.CompletionItemKind.VARIABLE) (some name), ?_, rfl⟩
          simp only [Legacy.get_completion_for_port, Legacy.get_completion_for_address,
            List.nil_append, List.mem_append, List.mem_map]
          exact Or.inr ⟨name, hv, rfl⟩
  · intro hcd
    rw [if_neg hcd] at hrun
    exact hrun

/-- One rule, on line 0, with `$HOME_NET` as its source address and
`$HTTP_PORTS` as its source port. -/
def c5Ast : Legacy.AST :=
  Legacy.AST.mk
    [(0,
      (Legacy.Rule.mk ("alert", Span.mk 0 5)
        (Legacy.Header.mk ("tcp", Span.mk 6 9)
          (Legacy.NetworkAddress.IPVariable ("HOME_NET", Span.mk 10 19), Span.mk 10 19)
          (Legacy.NetworkPort.PortVar ("HTTP_PORTS", Span.mk 20 31), Span.mk 20 31)
          (Meerkat.NetworkDirection.SrcToDst, Span.mk 32 34)
          (Legacy.NetworkAddress.Any, Span.mk 35 38) (Legacy.NetworkPort.Any, Span.mk 39 42),
          Span.mk 6 42)
        [],
        Span.mk 0 42))]

/-- C5 witness: the amended theorem applied after a typed `$`. -/
theorem c5_completion_contexts_witness :
    ∃ items, Legacy.get_completion ['$'] c5Ast 1 ([], []) c5Kws = some items ∧
      (∀ i ∈ items, i.kind = some Legacy.CompletionItemKind.VARIABLE ∧
        i.insert_text = some i.label) ∧
      (∀ name : String, (∃ i ∈ items, i.label = name) ↔
        ∃ e ∈ c5Ast.rules, ∃ sp,
          (name, sp) ∈ e.2.1.header.1.find_address_variables none [] ∨
          (name, sp) ∈ e.2.1.header.1.find_port_variables none []) :=
  (c5_completion_contexts ['$'] c5Ast 1 ([], []) c5Kws '$' (by decide) rfl).1 rfl
